import Mathlib

/-!
Verification of the JSON → GeoJSON feature extractors of
`convert_to_geojson.py` (Variant A) and `convert_to_multipoint.py`
(Variant B).  The two scripts share the traversal
(items → tracks → track.features) and the property-merge logic; they
differ in geometry handling and in whether the parsed input tree is
mutated.

The embedding models parsed JSON values, Python dictionary semantics
(insertion order, `get` with default, `update`, item assignment),
Python truthiness, the `in` operator, iteration, and uncaught
exceptions (`AttributeError`, `TypeError`, `KeyError`) via `Except`.
File reading/writing and JSON parse errors happen outside the
extraction logic and are not modelled; the embedding starts from the
parsed document (the value bound to `data` after `json.load`).
-/

/-- A parsed JSON value.  Numbers are modelled as integers: every
number appearing in the claims is integral, and numeric values are
otherwise passed through opaquely.  Objects are association lists in
insertion order, matching Python's order-preserving `dict`. -/
inductive Json where
  | null : Json
  | bool (b : Bool) : Json
  | num (n : Int) : Json
  | str (s : String) : Json
  | arr (xs : List Json) : Json
  | obj (kvs : List (String × Json)) : Json

mutual

/-- Structural equality of JSON values (Python `==` on parsed JSON). -/
def Json.beq : Json → Json → Bool
  | .null, .null => true
  | .bool a, .bool b => a == b
  | .num a, .num b => a == b
  | .str a, .str b => a == b
  | .arr xs, .arr ys => Json.beqList xs ys
  | .obj xs, .obj ys => Json.beqKVs xs ys
  | _, _ => false

def Json.beqList : List Json → List Json → Bool
  | [], [] => true
  | x :: xs, y :: ys => Json.beq x y && Json.beqList xs ys
  | _, _ => false

def Json.beqKVs : List (String × Json) → List (String × Json) → Bool
  | [], [] => true
  | x :: xs, y :: ys => x.1 == y.1 && Json.beq x.2 y.2 && Json.beqKVs xs ys
  | _, _ => false

end

mutual

theorem Json.eq_of_beq : ∀ {a b : Json}, Json.beq a b = true → a = b
  | .null, .null, _ => rfl
  | .bool _, .bool _, h => by
    simp only [Json.beq, beq_iff_eq] at h; rw [h]
  | .num _, .num _, h => by
    simp only [Json.beq, beq_iff_eq] at h; rw [h]
  | .str _, .str _, h => by
    simp only [Json.beq, beq_iff_eq] at h; rw [h]
  | .arr _, .arr _, h => by
    simp only [Json.beq] at h; rw [Json.eqList_of_beqList h]
  | .obj _, .obj _, h => by
    simp only [Json.beq] at h; rw [Json.eqKVs_of_beqKVs h]

theorem Json.eqList_of_beqList :
    ∀ {xs ys : List Json}, Json.beqList xs ys = true → xs = ys
  | [], [], _ => rfl
  | x :: xs, y :: ys, h => by
    simp only [Json.beqList, Bool.and_eq_true] at h
    rw [Json.eq_of_beq h.1, Json.eqList_of_beqList h.2]

theorem Json.eqKVs_of_beqKVs :
    ∀ {xs ys : List (String × Json)}, Json.beqKVs xs ys = true → xs = ys
  | [], [], _ => rfl
  | (k₁, v₁) :: xs, (k₂, v₂) :: ys, h => by
    simp only [Json.beqKVs, Bool.and_eq_true, beq_iff_eq] at h
    rw [h.1.1, Json.eq_of_beq h.1.2, Json.eqKVs_of_beqKVs h.2]

end

mutual

theorem Json.beq_refl : ∀ a : Json, Json.beq a a = true
  | .null => rfl
  | .bool _ => by simp [Json.beq]
  | .num _ => by simp [Json.beq]
  | .str _ => by simp [Json.beq]
  | .arr xs => by simp only [Json.beq]; exact Json.beqList_refl xs
  | .obj kvs => by simp only [Json.beq]; exact Json.beqKVs_refl kvs

theorem Json.beqList_refl : ∀ xs : List Json, Json.beqList xs xs = true
  | [] => rfl
  | x :: xs => by
    simp only [Json.beqList, Bool.and_eq_true]
    exact ⟨Json.beq_refl x, Json.beqList_refl xs⟩

theorem Json.beqKVs_refl : ∀ xs : List (String × Json), Json.beqKVs xs xs = true
  | [] => rfl
  | (k, v) :: xs => by
    simp only [Json.beqKVs, Bool.and_eq_true, beq_iff_eq]
    exact ⟨⟨trivial, Json.beq_refl v⟩, Json.beqKVs_refl xs⟩

end

instance : DecidableEq Json := fun a b =>
  decidable_of_iff (Json.beq a b = true)
    ⟨Json.eq_of_beq, fun h => h ▸ Json.beq_refl a⟩

/-- First-match lookup in an association list (Python `d[k]` /
`d.get(k)` semantics; parsed JSON has unique keys anyway). -/
def lookupD : List (String × Json) → String → Option Json
  | [], _ => none
  | (k, v) :: rest, key => if k = key then some v else lookupD rest key

/-- Python `d[key] = val`: replace in place (keeping the key's
position) when present, append when absent. -/
def dset : List (String × Json) → String → Json → List (String × Json)
  | [], key, val => [(key, val)]
  | (k, v) :: rest, key, val =>
    if k = key then (k, val) :: rest else (k, v) :: dset rest key val

/-- Python `d.update(e)` for a literal `e`: fold `dset` over `e`'s
entries in order. -/
def dupdate (d e : List (String × Json)) : List (String × Json) :=
  e.foldl (fun a kv => dset a kv.1 kv.2) d

/-- Python truthiness of a JSON value (`bool(x)`). -/
def truthy : Json → Bool
  | .null => false
  | .bool b => b
  | .num n => n != 0
  | .str s => s != ""
  | .arr xs => !xs.isEmpty
  | .obj kvs => !kvs.isEmpty

/-- `needle` occurs as a contiguous substring of `hay`
(Python `needle in hay` for strings). -/
def strContains (hay needle : String) : Bool :=
  (List.range (hay.data.length + 1)).any
    (fun i => needle.data.isPrefixOf (hay.data.drop i))

/-- The uncaught Python exceptions the two scripts can raise past
`process_json_file`. -/
inductive PyErr where
  | attrError : PyErr
  | typeError : PyErr
  | keyError : PyErr
deriving DecidableEq, Repr

/-- `o.get(k, dflt)`: only dictionaries have `.get`; anything else
raises `AttributeError`. -/
def pyGetD (o : Json) (k : String) (dflt : Json) : Except PyErr Json :=
  match o with
  | .obj kvs => .ok ((lookupD kvs k).getD dflt)
  | _ => .error .attrError

/-- `o.get(k)` (default `None`). -/
def pyGet (o : Json) (k : String) : Except PyErr Json :=
  pyGetD o k .null

/-- Python `k in o` for a string `k`: key test on dicts, membership on
lists, substring test on strings; `TypeError` otherwise. -/
def pyIn (k : String) (o : Json) : Except PyErr Bool :=
  match o with
  | .obj kvs => .ok (kvs.any (fun kv => kv.1 = k))
  | .arr xs => .ok (xs.any (fun x => Json.beq x (.str k)))
  | .str s => .ok (strContains s k)
  | _ => .error .typeError

/-- `o.copy()`: dicts and lists have `.copy`; anything else raises
`AttributeError`. -/
def pyCopy (o : Json) : Except PyErr Json :=
  match o with
  | .obj kvs => .ok (.obj kvs)
  | .arr xs => .ok (.arr xs)
  | _ => .error .attrError

/-- `o.update(e)` for a literal dict `e`: only dicts have `.update`. -/
def pyUpdate (o : Json) (e : List (String × Json)) : Except PyErr Json :=
  match o with
  | .obj kvs => .ok (.obj (dupdate kvs e))
  | _ => .error .attrError

/-- `o[k] = v`: item assignment, `TypeError` on non-dicts. -/
def pySetItem (o : Json) (k : String) (v : Json) : Except PyErr Json :=
  match o with
  | .obj kvs => .ok (.obj (dset kvs k v))
  | _ => .error .typeError

/-- `o[k]`: subscription; `KeyError` when the key is absent. -/
def pySubscript (o : Json) (k : String) : Except PyErr Json :=
  match o with
  | .obj kvs =>
    match lookupD kvs k with
    | some v => .ok v
    | none => .error .keyError
  | _ => .error .typeError

/-- `for x in o`: lists yield elements, strings yield one-character
strings, dicts yield their keys; `TypeError` otherwise. -/
def pyIter (o : Json) : Except PyErr (List Json) :=
  match o with
  | .arr xs => .ok xs
  | .str s => .ok (s.data.map (fun c => .str (String.mk [c])))
  | .obj kvs => .ok (kvs.map (fun kv => .str kv.1))
  | _ => .error .typeError

/-- Outcome of one `process_json_file` run after the file was parsed:
`itemsNotList` is the whole-document shape failure (`return False`,
"Skipping file"), `empty` the zero-features path (`return False`,
"No valid ... features found", no write), `success fs` the path that
writes `{"type": "FeatureCollection", "features": fs}`. -/
inductive ExtractResult where
  | itemsNotList : ExtractResult
  | empty : ExtractResult
  | success (fs : List Json) : ExtractResult
deriving DecidableEq

/-- The features an `ExtractResult` contributes to an output file. -/
def featuresOf : ExtractResult → List Json
  | .success fs => fs
  | _ => []

/-- `v` is a JSON array (Python `isinstance(v, list)`). -/
def Json.isArr : Json → Bool
  | .arr _ => true
  | _ => false

/-!
## Transcription of the extraction logic

`extractA` embeds `convert_to_geojson.process_json_file` (Variant A)
and `extractB` embeds `convert_to_multipoint.process_json_file`
(Variant B), starting after `json.load` and stopping before the
output write.  Both return the `ExtractResult` together with the value
of the parsed input tree after processing: Variant A assigns
`feature["properties"] = new_properties` into the tree, so the
post-state is accounted for by rebuilding the mutated spine;
Variant B performs no assignment into the tree.
-/

/-- Lines 40–46 / 37–43: `user_id = item.get("userId")` and the
`user_properties` dict literal. -/
def userPropsOf (item : Json) : Except PyErr (List (String × Json)) := do
  let uid ← pyGet item "userId"
  let ag ← pyGet item "ageGroup"
  let cc ← pyGet item "countryCode"
  let g ← pyGet item "gender"
  .ok [("userId", uid), ("ageGroup", ag), ("countryCode", cc), ("gender", g)]

/-- Variant A, lines 62–83: enrich one feature's properties and assign
them back into the feature.  The returned value is both the emitted
feature and (because of the in-place assignment) the feature's value
in the input tree afterwards. -/
def processFeatureA (up : List (String × Json)) (ti f : Json) :
    Except PyErr Json := do
  let props ← pyGetD f "properties" (.obj [])
  let props ← pyCopy props
  let props ← pyUpdate props up
  let v ← pyGet ti "trackId"
  let props ← pySetItem props "trackId" v
  let v ← pyGet ti "activity"
  let props ← pySetItem props "activity" v
  let v ← pyGet ti "locationCountry"
  let props ← pySetItem props "locationCountry" v
  let v ← pyGet ti "summary"
  let props ← pySetItem props "summary" v
  let v ← pyGet ti "resort"
  let props ← pySetItem props "resort" v
  pySetItem f "properties" props

/-- The `for feature in ...` loop body of Variant A over a list of
features, collecting the emitted features in order. -/
def processFeaturesA (up : List (String × Json)) (ti : Json) :
    List Json → Except PyErr (List Json)
  | [] => .ok []
  | f :: fs => do
    let g ← processFeatureA up ti f
    let rest ← processFeaturesA up ti fs
    .ok (g :: rest)

/-- Variant A, lines 53–83: one iteration of the `for track_item in
tracks` loop.  Returns the emitted features and the value of the
track record after processing (its `track.features` entries were
mutated in place whenever the `features` value was a list). -/
def processTrackA (up : List (String × Json)) (ti : Json) :
    Except PyErr (List Json × Json) := do
  let ifc ← pyGet ti "track"
  if truthy ifc = false then .ok ([], ti)
  else do
    let hasF ← pyIn "features" ifc
    if hasF = false then .ok ([], ti)
    else do
      let featsJ ← pyGetD ifc "features" (.arr [])
      let feats ← pyIter featsJ
      let newFeats ← processFeaturesA up ti feats
      match featsJ with
      | .arr _ => do
        let ifc2 ← pySetItem ifc "features" (.arr newFeats)
        let ti2 ← pySetItem ti "track" ifc2
        .ok (newFeats, ti2)
      | _ => .ok (newFeats, ti)

/-- The `for track_item in tracks` loop of Variant A over a list,
collecting features and post-state track records. -/
def processTracksA (up : List (String × Json)) :
    List Json → Except PyErr (List Json × List Json)
  | [] => .ok ([], [])
  | ti :: ts => do
    let (fs, ti2) ← processTrackA up ti
    let (rest, ts2) ← processTracksA up ts
    .ok (fs ++ rest, ti2 :: ts2)

/-- Variant A, lines 38–83: one iteration of the `for item in items`
loop, including the `isinstance(tracks, list)` guard that skips the
whole user record. -/
def processItemA (item : Json) : Except PyErr (List Json × Json) := do
  let up ← userPropsOf item
  let tracksJ ← pyGetD item "tracks" (.arr [])
  match tracksJ with
  | .arr ts => do
    let (fs, ts2) ← processTracksA up ts
    let item2 ←
      match item with
      | .obj kvs =>
        match lookupD kvs "tracks" with
        | some _ => pySetItem item "tracks" (.arr ts2)
        | none => .ok item
      | _ => .ok item
    .ok (fs, item2)
  | _ => .ok ([], item)

/-- The `for item in items` loop of Variant A. -/
def processItemsA : List Json → Except PyErr (List Json × List Json)
  | [] => .ok ([], [])
  | i :: is => do
    let (fs, i2) ← processItemA i
    let (rest, is2) ← processItemsA is
    .ok (fs ++ rest, i2 :: is2)

/-- Variant A, lines 29–93: the whole extraction, from the parsed
document to the taken control path, together with the input tree's
value after processing. -/
def extractA (doc : Json) : Except PyErr (ExtractResult × Json) := do
  let itemsJ ← pyGetD doc "items" (.arr [])
  match itemsJ with
  | .arr items => do
    let (fs, items2) ← processItemsA items
    let doc2 ←
      match doc with
      | .obj kvs =>
        match lookupD kvs "items" with
        | some _ => pySetItem doc "items" (.arr items2)
        | none => .ok doc
      | _ => .ok doc
    if fs.isEmpty then .ok (.empty, doc2)
    else .ok (.success fs, doc2)
  | _ => .ok (.itemsNotList, doc)

/-- Variant A's control path, with the post-state tree projected away. -/
def extractedA (doc : Json) : Except PyErr ExtractResult :=
  (extractA doc).map Prod.fst

/-- Variant B, lines 57–86: handle one feature.  `none` means the
feature was filtered out by the LineString check; `some g` is the
freshly constructed MultiPoint feature. -/
def processFeatureB (up : List (String × Json)) (ti f : Json) :
    Except PyErr (Option Json) := do
  let geomD ← pyGetD f "geometry" (.obj [])
  let gt ← pyGet geomD "type"
  if gt ≠ Json.str "LineString" then .ok none
  else do
    let props ← pyGetD f "properties" (.obj [])
    let props ← pyCopy props
    let props ← pyUpdate props up
    let v ← pyGet ti "trackId"
    let props ← pySetItem props "trackId" v
    let v ← pyGet ti "activity"
    let props ← pySetItem props "activity" v
    let v ← pyGet ti "locationCountry"
    let props ← pySetItem props "locationCountry" v
    let v ← pyGet ti "summary"
    let props ← pySetItem props "summary" v
    let v ← pyGet ti "resort"
    let props ← pySetItem props "resort" v
    let geom ← pySubscript f "geometry"
    let coords ← pyGetD geom "coordinates" (.arr [])
    .ok (some (.obj [("type", .str "Feature"),
      ("geometry", .obj [("type", .str "MultiPoint"), ("coordinates", coords)]),
      ("properties", props)]))

/-- The `for feature in ...` loop of Variant B, keeping only the
converted features. -/
def processFeaturesB (up : List (String × Json)) (ti : Json) :
    List Json → Except PyErr (List Json)
  | [] => .ok []
  | f :: fs => do
    let o ← processFeatureB up ti f
    let rest ← processFeaturesB up ti fs
    match o with
    | some g => .ok (g :: rest)
    | none => .ok rest

/-- Variant B, lines 50–86: one iteration of the tracks loop.  The
track record itself is never assigned into, so its post-state value is
the input. -/
def processTrackB (up : List (String × Json)) (ti : Json) :
    Except PyErr (List Json × Json) := do
  let ifc ← pyGet ti "track"
  if truthy ifc = false then .ok ([], ti)
  else do
    let hasF ← pyIn "features" ifc
    if hasF = false then .ok ([], ti)
    else do
      let featsJ ← pyGetD ifc "features" (.arr [])
      let feats ← pyIter featsJ
      let newFeats ← processFeaturesB up ti feats
      .ok (newFeats, ti)

/-- The tracks loop of Variant B over a list. -/
def processTracksB (up : List (String × Json)) :
    List Json → Except PyErr (List Json × List Json)
  | [] => .ok ([], [])
  | ti :: ts => do
    let (fs, ti2) ← processTrackB up ti
    let (rest, ts2) ← processTracksB up ts
    .ok (fs ++ rest, ti2 :: ts2)

/-- Variant B, lines 36–86: one iteration of the items loop. -/
def processItemB (item : Json) : Except PyErr (List Json × Json) := do
  let up ← userPropsOf item
  let tracksJ ← pyGetD item "tracks" (.arr [])
  match tracksJ with
  | .arr ts => do
    let (fs, _) ← processTracksB up ts
    .ok (fs, item)
  | _ => .ok ([], item)

/-- The items loop of Variant B. -/
def processItemsB : List Json → Except PyErr (List Json × List Json)
  | [] => .ok ([], [])
  | i :: is => do
    let (fs, i2) ← processItemB i
    let (rest, is2) ← processItemsB is
    .ok (fs ++ rest, i2 :: is2)

/-- Variant B, lines 29–96: the whole extraction together with the
input tree's value after processing. -/
def extractB (doc : Json) : Except PyErr (ExtractResult × Json) := do
  let itemsJ ← pyGetD doc "items" (.arr [])
  match itemsJ with
  | .arr items => do
    let (fs, _) ← processItemsB items
    if fs.isEmpty then .ok (.empty, doc)
    else .ok (.success fs, doc)
  | _ => .ok (.itemsNotList, doc)

/-- Variant B's control path alone. -/
def extractedB (doc : Json) : Except PyErr ExtractResult :=
  (extractB doc).map Prod.fst

/-!
## Declarative traversal and per-feature transforms

`eligTriples` / `eligTriplesB` are modelled from the spec's traversal
description (user-major, then track-major, then feature-major;
skipped users, skipped tracks and — in Variant B — filtered-out
features removed, relative order unchanged).  The per-feature
transforms `emitAWith` / `emitBWith` restate the loop bodies of the
source as total functions; the refinement lemmas below connect the
two sides.
-/

/-- Total helper: `o.get(k)` on a dictionary with Python's `None`
default, `null` on non-dictionaries (only used where the source
guarantees a dictionary). -/
def objGet (o : Json) (k : String) : Json :=
  match o with
  | .obj kvs => (lookupD kvs k).getD .null
  | _ => .null

/-- A feature's original properties as a key-value list: the
`properties` entry when it is an object, `{}` when absent (the
source's `.get("properties", {})` default). -/
def propsOfFeature (f : Json) : List (String × Json) :=
  match f with
  | .obj kvs =>
    match lookupD kvs "properties" with
    | some (.obj p) => p
    | none => []
    | some _ => []
  | _ => []

/-- The feature has an object geometry whose `type` is exactly the
string `"LineString"` (Variant B's filter condition). -/
def isLineStringFeature (f : Json) : Bool :=
  match f with
  | .obj kvs =>
    match lookupD kvs "geometry" with
    | some (.obj g) => lookupD g "type" = some (.str "LineString")
    | _ => false
  | _ => false

/-- The coordinate sequence of a feature's geometry
(`feature["geometry"].get("coordinates", [])`). -/
def coordsOf (f : Json) : Json :=
  match f with
  | .obj kvs =>
    match lookupD kvs "geometry" with
    | some (.obj g) => (lookupD g "coordinates").getD (.arr [])
    | _ => .arr []
  | _ => .arr []

/-- The user-level property dict built from a user record
(`None` for absent fields). -/
def userPropsPure (item : Json) : List (String × Json) :=
  [("userId", objGet item "userId"), ("ageGroup", objGet item "ageGroup"),
   ("countryCode", objGet item "countryCode"), ("gender", objGet item "gender")]

/-- The merged properties of one emitted feature: shallow copy of the
original properties, overlaid with the user-level dict, then with the
five track-level assignments, in source order. -/
def mergedPropsWith (up : List (String × Json)) (ti : Json)
    (p0 : List (String × Json)) : List (String × Json) :=
  let p := dupdate p0 up
  let p := dset p "trackId" (objGet ti "trackId")
  let p := dset p "activity" (objGet ti "activity")
  let p := dset p "locationCountry" (objGet ti "locationCountry")
  let p := dset p "summary" (objGet ti "summary")
  dset p "resort" (objGet ti "resort")

/-- Variant A's per-feature transform as a total function: the feature
with its `properties` entry replaced by the merged properties. -/
def emitAWith (up : List (String × Json)) (ti f : Json) : Json :=
  match f with
  | .obj kvs =>
    .obj (dset kvs "properties" (.obj (mergedPropsWith up ti (propsOfFeature f))))
  | _ => f

/-- Variant B's per-feature transform as a total function: a fresh
feature with a MultiPoint geometry carrying the source coordinates. -/
def emitBWith (up : List (String × Json)) (ti f : Json) : Json :=
  .obj [("type", .str "Feature"),
    ("geometry", .obj [("type", .str "MultiPoint"), ("coordinates", coordsOf f)]),
    ("properties", .obj (mergedPropsWith up ti (propsOfFeature f)))]

/-- Variant A's per-feature transform on a traversal triple
(user record, track record, feature). -/
def emitA3 (t : Json × Json × Json) : Json :=
  emitAWith (userPropsPure t.1) t.2.1 t.2.2

/-- Variant B's per-feature transform on a traversal triple. -/
def emitB3 (t : Json × Json × Json) : Json :=
  emitBWith (userPropsPure t.1) t.2.1 t.2.2

/-- Modelled from the spec: the features a track record contributes to
the traversal — the `features` sequence of its `track` object, empty
when `track` is missing or not an object or lacks a sequence-valued
`features` entry (the track is skipped). -/
def trackFeatures (ti : Json) : List Json :=
  match ti with
  | .obj kvs =>
    match lookupD kvs "track" with
    | some (.obj ikvs) =>
      match lookupD ikvs "features" with
      | some (.arr fs) => fs
      | _ => []
    | _ => []
  | _ => []

/-- Modelled from the spec: Variant B keeps only the features whose
geometry type is exactly `"LineString"`. -/
def trackFeaturesB (ti : Json) : List Json :=
  (trackFeatures ti).filter isLineStringFeature

/-- The traversal triples contributed by one track record. -/
def trackTriples (item ti : Json) : List (Json × Json × Json) :=
  (trackFeatures ti).map (fun f => (item, ti, f))

/-- The traversal triples contributed by one track record, Variant B. -/
def trackTriplesB (item ti : Json) : List (Json × Json × Json) :=
  (trackFeaturesB ti).map (fun f => (item, ti, f))

/-- Track-major traversal of a track list. -/
def tracksTriples (item : Json) : List Json → List (Json × Json × Json)
  | [] => []
  | ti :: ts => trackTriples item ti ++ tracksTriples item ts

/-- Track-major traversal of a track list, Variant B. -/
def tracksTriplesB (item : Json) : List Json → List (Json × Json × Json)
  | [] => []
  | ti :: ts => trackTriplesB item ti ++ tracksTriplesB item ts

/-- Modelled from the spec: the traversal triples of one user record;
empty when the `tracks` value is absent or not a sequence (the user is
skipped). -/
def itemTriples (item : Json) : List (Json × Json × Json) :=
  match item with
  | .obj kvs =>
    match lookupD kvs "tracks" with
    | some (.arr ts) => tracksTriples item ts
    | _ => []
  | _ => []

/-- The traversal triples of one user record, Variant B. -/
def itemTriplesB (item : Json) : List (Json × Json × Json) :=
  match item with
  | .obj kvs =>
    match lookupD kvs "tracks" with
    | some (.arr ts) => tracksTriplesB item ts
    | _ => []
  | _ => []

/-- User-major traversal of a user-record list. -/
def itemsTriples : List Json → List (Json × Json × Json)
  | [] => []
  | i :: is => itemTriples i ++ itemsTriples is

/-- User-major traversal of a user-record list, Variant B. -/
def itemsTriplesB : List Json → List (Json × Json × Json)
  | [] => []
  | i :: is => itemTriplesB i ++ itemsTriplesB is

/-- Modelled from the spec: the eligible (user, track, feature)
triples of a whole document in traversal order, Variant A.  Empty when
`items` is absent or not a sequence. -/
def eligTriples (doc : Json) : List (Json × Json × Json) :=
  match doc with
  | .obj kvs =>
    match lookupD kvs "items" with
    | some (.arr items) => itemsTriples items
    | _ => []
  | _ => []

/-- The eligible triples of a whole document, Variant B. -/
def eligTriplesB (doc : Json) : List (Json × Json × Json) :=
  match doc with
  | .obj kvs =>
    match lookupD kvs "items" with
    | some (.arr items) => itemsTriplesB items
    | _ => []
  | _ => []

/-- A document whose `items` entry is the given user-record list. -/
def mkDoc (items : List Json) : Json :=
  .obj [("items", .arr items)]

/-!
## The spec's worked example
-/

/-- The example feature's LineString geometry. -/
def exGeom : Json :=
  .obj [("type", .str "LineString"),
    ("coordinates", .arr [.arr [.num 0, .num 0], .arr [.num 1, .num 1]])]

/-- The example input feature. -/
def exFeat : Json :=
  .obj [("type", .str "Feature"), ("geometry", exGeom), ("properties", .obj [])]

/-- The example track record. -/
def exTrack : Json :=
  .obj [("trackId", .str "t1"), ("track", .obj [("features", .arr [exFeat])])]

/-- The example user record. -/
def exItem : Json :=
  .obj [("userId", .str "u1"), ("tracks", .arr [exTrack])]

/-- The spec's example input document. -/
def exampleDoc : Json := mkDoc [exItem]

/-- The merged properties of the example's single output feature. -/
def exProps : Json :=
  .obj [("userId", .str "u1"), ("ageGroup", .null), ("countryCode", .null),
    ("gender", .null), ("trackId", .str "t1"), ("activity", .null),
    ("locationCountry", .null), ("summary", .null), ("resort", .null)]

/-- The example's single Variant A output feature: geometry unchanged,
properties merged. -/
def exOutA : Json :=
  .obj [("type", .str "Feature"), ("geometry", exGeom), ("properties", exProps)]

/-- The example's single Variant B output feature: MultiPoint geometry
with the LineString's coordinates, identical properties. -/
def exOutB : Json :=
  .obj [("type", .str "Feature"),
    ("geometry", .obj [("type", .str "MultiPoint"),
      ("coordinates", .arr [.arr [.num 0, .num 0], .arr [.num 1, .num 1]])]),
    ("properties", exProps)]

/-- The example document's value after Variant A has processed it: the
feature inside the tree now carries the merged properties. -/
def exampleDocAfterA : Json :=
  mkDoc [.obj [("userId", .str "u1"),
    ("tracks", .arr [.obj [("trackId", .str "t1"),
      ("track", .obj [("features", .arr [exOutA])])]])]]

example : extractA exampleDoc = .ok (.success [exOutA], exampleDocAfterA) := by
  rfl

example : extractB exampleDoc = .ok (.success [exOutB], exampleDoc) := by
  rfl

/-!
## Proof toolkit
-/

theorem ok_bind {α β : Type} (a : α) (g : α → Except PyErr β) :
    (Except.ok a >>= g) = g a := rfl

theorem error_bind {α β : Type} (e : PyErr) (g : α → Except PyErr β) :
    ((Except.error e : Except PyErr α) >>= g) = .error e := rfl

theorem exBind_ok {α β : Type} {e : Except PyErr α} {g : α → Except PyErr β}
    {b : β} (h : (e >>= g) = .ok b) : ∃ a, e = .ok a ∧ g a = .ok b := by
  cases e with
  | error err => rw [error_bind] at h; exact absurd h (by simp)
  | ok a => rw [ok_bind] at h; exact ⟨a, rfl, h⟩

theorem lookupD_dset_self (d : List (String × Json)) (k : String) (v : Json) :
    lookupD (dset d k v) k = some v := by
  induction d with
  | nil => simp [dset, lookupD]
  | cons kv rest ih =>
    obtain ⟨k1, v1⟩ := kv
    by_cases hk : k1 = k
    · simp [dset, lookupD, hk]
    · simp [dset, lookupD, hk, ih]

theorem lookupD_dset_other (d : List (String × Json)) (k k' : String)
    (v : Json) (hne : k' ≠ k) : lookupD (dset d k v) k' = lookupD d k' := by
  induction d with
  | nil => simp [dset, lookupD, Ne.symm hne]
  | cons kv rest ih =>
    obtain ⟨k1, v1⟩ := kv
    by_cases hk : k1 = k
    · subst hk
      simp [dset, lookupD, Ne.symm hne]
    · simp only [dset, if_neg hk, lookupD]
      by_cases hk2 : k1 = k'
      · simp [hk2]
      · simp [hk2, ih]

theorem dset_self_of_lookupD (d : List (String × Json)) (k : String)
    (v : Json) (h : lookupD d k = some v) : dset d k v = d := by
  induction d with
  | nil => simp [lookupD] at h
  | cons kv rest ih =>
    obtain ⟨k1, v1⟩ := kv
    by_cases hk : k1 = k
    · subst hk
      simp [lookupD] at h
      simp [dset, h]
    · simp [lookupD, hk] at h
      simp [dset, hk, ih h]

theorem any_key_eq_isSome (kvs : List (String × Json)) (k : String) :
    (kvs.any fun kv => kv.1 = k) = (lookupD kvs k).isSome := by
  induction kvs with
  | nil => simp [lookupD]
  | cons kv rest ih =>
    obtain ⟨k1, v1⟩ := kv
    by_cases hk : k1 = k
    · simp [lookupD, hk]
    · simp [lookupD, hk, ih]

/-!
## Refinement: the transcribed loops compute the declarative traversal
-/

theorem processFeatureA_ok {up : List (String × Json)} {ti f g : Json}
    (h : processFeatureA up ti f = .ok g) :
    g = emitAWith up ti f ∧ ∃ fk, f = Json.obj fk := by
  unfold processFeatureA at h
  obtain ⟨p0, hp0, h⟩ := exBind_ok h
  obtain ⟨p1, hp1, h⟩ := exBind_ok h
  obtain ⟨p2, hp2, h⟩ := exBind_ok h
  obtain ⟨w1, hw1, h⟩ := exBind_ok h
  obtain ⟨p3, hp3, h⟩ := exBind_ok h
  obtain ⟨w2, hw2, h⟩ := exBind_ok h
  obtain ⟨p4, hp4, h⟩ := exBind_ok h
  obtain ⟨w3, hw3, h⟩ := exBind_ok h
  obtain ⟨p5, hp5, h⟩ := exBind_ok h
  obtain ⟨w4, hw4, h⟩ := exBind_ok h
  obtain ⟨p6, hp6, h⟩ := exBind_ok h
  obtain ⟨w5, hw5, h⟩ := exBind_ok h
  obtain ⟨p7, hp7, h⟩ := exBind_ok h
  cases f with
  | obj fkvs =>
    simp only [pyGetD, Except.ok.injEq] at hp0
    subst hp0
    rcases hl : lookupD fkvs "properties" with _ | v
    · rw [hl] at hp1
      simp only [Option.getD_none, pyCopy, Except.ok.injEq] at hp1
      subst hp1
      simp only [pyUpdate, Except.ok.injEq] at hp2
      subst hp2
      cases ti with
      | obj tkvs =>
        simp only [pyGet, pyGetD, Except.ok.injEq] at hw1 hw2 hw3 hw4 hw5
        subst hw1; subst hw2; subst hw3; subst hw4; subst hw5
        simp only [pySetItem, Except.ok.injEq] at hp3
        subst hp3
        simp only [pySetItem, Except.ok.injEq] at hp4
        subst hp4
        simp only [pySetItem, Except.ok.injEq] at hp5
        subst hp5
        simp only [pySetItem, Except.ok.injEq] at hp6
        subst hp6
        simp only [pySetItem, Except.ok.injEq] at hp7
        subst hp7
        simp only [pySetItem, Except.ok.injEq] at h
        subst h
        simp [emitAWith, mergedPropsWith, propsOfFeature, objGet, hl]
      | null => simp [pyGet, pyGetD] at hw1
      | bool b => simp [pyGet, pyGetD] at hw1
      | num n => simp [pyGet, pyGetD] at hw1
      | str s => simp [pyGet, pyGetD] at hw1
      | arr xs => simp [pyGet, pyGetD] at hw1
    · rw [hl] at hp1
      cases v with
      | obj p =>
        simp only [Option.getD_some, pyCopy, Except.ok.injEq] at hp1
        subst hp1
        simp only [pyUpdate, Except.ok.injEq] at hp2
        subst hp2
        cases ti with
        | obj tkvs =>
          simp only [pyGet, pyGetD, Except.ok.injEq] at hw1 hw2 hw3 hw4 hw5
          subst hw1; subst hw2; subst hw3; subst hw4; subst hw5
          simp only [pySetItem, Except.ok.injEq] at hp3
          subst hp3
          simp only [pySetItem, Except.ok.injEq] at hp4
          subst hp4
          simp only [pySetItem, Except.ok.injEq] at hp5
          subst hp5
          simp only [pySetItem, Except.ok.injEq] at hp6
          subst hp6
          simp only [pySetItem, Except.ok.injEq] at hp7
          subst hp7
          simp only [pySetItem, Except.ok.injEq] at h
          subst h
          simp [emitAWith, mergedPropsWith, propsOfFeature, objGet, hl]
        | null => simp [pyGet, pyGetD] at hw1
        | bool b => simp [pyGet, pyGetD] at hw1
        | num n => simp [pyGet, pyGetD] at hw1
        | str s => simp [pyGet, pyGetD] at hw1
        | arr xs => simp [pyGet, pyGetD] at hw1
      | arr xs =>
        simp only [Option.getD_some, pyCopy, Except.ok.injEq] at hp1
        subst hp1
        simp [pyUpdate] at hp2
      | null => simp [pyCopy] at hp1
      | bool b => simp [pyCopy] at hp1
      | num n => simp [pyCopy] at hp1
      | str s => simp [pyCopy] at hp1
  | null => simp [pyGetD] at hp0
  | bool b => simp [pyGetD] at hp0
  | num n => simp [pyGetD] at hp0
  | str s => simp [pyGetD] at hp0
  | arr xs => simp [pyGetD] at hp0

theorem processFeatureB_ok {up : List (String × Json)} {ti f : Json}
    {o : Option Json} (h : processFeatureB up ti f = .ok o) :
    o = if isLineStringFeature f then some (emitBWith up ti f) else none := by
  unfold processFeatureB at h
  obtain ⟨d0, hd0, h⟩ := exBind_ok h
  obtain ⟨gt, hgt, h⟩ := exBind_ok h
  cases f with
  | obj fkvs =>
    simp only [pyGetD, Except.ok.injEq] at hd0
    subst hd0
    rcases hgl : lookupD fkvs "geometry" with _ | v
    · rw [hgl] at hgt
      simp only [Option.getD_none, pyGet, pyGetD, lookupD, Option.getD_none,
        Except.ok.injEq] at hgt
      subst hgt
      rw [if_pos (by simp)] at h
      simp only [Except.ok.injEq] at h
      subst h
      simp [isLineStringFeature, hgl]
    · rw [hgl] at hgt
      cases v with
      | obj gk =>
        simp only [Option.getD_some, pyGet, pyGetD, Except.ok.injEq] at hgt
        subst hgt
        by_cases hty : lookupD gk "type" = some (.str "LineString")
        · rw [hty] at h
          rw [if_neg (by simp)] at h
          obtain ⟨p0, hp0, h⟩ := exBind_ok h
          obtain ⟨p1, hp1, h⟩ := exBind_ok h
          obtain ⟨p2, hp2, h⟩ := exBind_ok h
          obtain ⟨w1, hw1, h⟩ := exBind_ok h
          obtain ⟨p3, hp3, h⟩ := exBind_ok h
          obtain ⟨w2, hw2, h⟩ := exBind_ok h
          obtain ⟨p4, hp4, h⟩ := exBind_ok h
          obtain ⟨w3, hw3, h⟩ := exBind_ok h
          obtain ⟨p5, hp5, h⟩ := exBind_ok h
          obtain ⟨w4, hw4, h⟩ := exBind_ok h
          obtain ⟨p6, hp6, h⟩ := exBind_ok h
          obtain ⟨w5, hw5, h⟩ := exBind_ok h
          obtain ⟨p7, hp7, h⟩ := exBind_ok h
          obtain ⟨geom, hgeom, h⟩ := exBind_ok h
          obtain ⟨coords, hcoords, h⟩ := exBind_ok h
          simp only [pyGetD, Except.ok.injEq] at hp0
          subst hp0
          rcases hl : lookupD fkvs "properties" with _ | pv
          · rw [hl] at hp1
            simp only [Option.getD_none, pyCopy, Except.ok.injEq] at hp1
            subst hp1
            simp only [pyUpdate, Except.ok.injEq] at hp2
            subst hp2
            cases ti with
            | obj tkvs =>
              simp only [pyGet, pyGetD, Except.ok.injEq] at hw1 hw2 hw3 hw4 hw5
              subst hw1; subst hw2; subst hw3; subst hw4; subst hw5
              simp only [pySetItem, Except.ok.injEq] at hp3
              subst hp3
              simp only [pySetItem, Except.ok.injEq] at hp4
              subst hp4
              simp only [pySetItem, Except.ok.injEq] at hp5
              subst hp5
              simp only [pySetItem, Except.ok.injEq] at hp6
              subst hp6
              simp only [pySetItem, Except.ok.injEq] at hp7
              subst hp7
              simp only [pySubscript, hgl, Except.ok.injEq] at hgeom
              subst hgeom
              simp only [pyGetD, Except.ok.injEq] at hcoords
              subst hcoords
              simp only [Except.ok.injEq] at h
              subst h
              simp [isLineStringFeature, hgl, hty, emitBWith, coordsOf,
                mergedPropsWith, propsOfFeature, objGet, hl]
            | null => simp [pyGet, pyGetD] at hw1
            | bool b => simp [pyGet, pyGetD] at hw1
            | num n => simp [pyGet, pyGetD] at hw1
            | str s => simp [pyGet, pyGetD] at hw1
            | arr xs => simp [pyGet, pyGetD] at hw1
          · rw [hl] at hp1
            cases pv with
            | obj p =>
              simp only [Option.getD_some, pyCopy, Except.ok.injEq] at hp1
              subst hp1
              simp only [pyUpdate, Except.ok.injEq] at hp2
              subst hp2
              cases ti with
              | obj tkvs =>
                simp only [pyGet, pyGetD, Except.ok.injEq] at hw1 hw2 hw3 hw4 hw5
                subst hw1; subst hw2; subst hw3; subst hw4; subst hw5
                simp only [pySetItem, Except.ok.injEq] at hp3
                subst hp3
                simp only [pySetItem, Except.ok.injEq] at hp4
                subst hp4
                simp only [pySetItem, Except.ok.injEq] at hp5
                subst hp5
                simp only [pySetItem, Except.ok.injEq] at hp6
                subst hp6
                simp only [pySetItem, Except.ok.injEq] at hp7
                subst hp7
                simp only [pySubscript, hgl, Except.ok.injEq] at hgeom
                subst hgeom
                simp only [pyGetD, Except.ok.injEq] at hcoords
                subst hcoords
                simp only [Except.ok.injEq] at h
                subst h
                simp [isLineStringFeature, hgl, hty, emitBWith, coordsOf,
                  mergedPropsWith, propsOfFeature, objGet, hl]
              | null => simp [pyGet, pyGetD] at hw1
              | bool b => simp [pyGet, pyGetD] at hw1
              | num n => simp [pyGet, pyGetD] at hw1
              | str s => simp [pyGet, pyGetD] at hw1
              | arr xs => simp [pyGet, pyGetD] at hw1
            | arr xs =>
              simp only [Option.getD_some, pyCopy, Except.ok.injEq] at hp1
              subst hp1
              simp [pyUpdate] at hp2
            | null => simp [pyCopy] at hp1
            | bool b => simp [pyCopy] at hp1
            | num n => simp [pyCopy] at hp1
            | str s => simp [pyCopy] at hp1
        · have hne : (lookupD gk "type").getD Json.null ≠ Json.str "LineString" := by
            rcases hx : lookupD gk "type" with _ | x
            · simp
            · simp only [Option.getD_some]
              intro hc
              exact hty (by rw [hx, hc])
          rw [if_pos hne] at h
          simp only [Except.ok.injEq] at h
          subst h
          simp [isLineStringFeature, hgl, hty]
      | null => simp [Option.getD_some, pyGet, pyGetD] at hgt
      | bool b => simp [Option.getD_some, pyGet, pyGetD] at hgt
      | num n => simp [Option.getD_some, pyGet, pyGetD] at hgt
      | str s => simp [Option.getD_some, pyGet, pyGetD] at hgt
      | arr xs => simp [Option.getD_some, pyGet, pyGetD] at hgt
  | null => simp [pyGetD] at hd0
  | bool b => simp [pyGetD] at hd0
  | num n => simp [pyGetD] at hd0
  | str s => simp [pyGetD] at hd0
  | arr xs => simp [pyGetD] at hd0

theorem processFeaturesA_ok {up : List (String × Json)} {ti : Json}
    {fs ys : List Json} (h : processFeaturesA up ti fs = .ok ys) :
    ys = fs.map (emitAWith up ti) ∧ ∀ f ∈ fs, ∃ fk, f = Json.obj fk := by
  induction fs generalizing ys with
  | nil =>
    simp only [processFeaturesA, Except.ok.injEq] at h
    subst h
    simp
  | cons f fs ih =>
    unfold processFeaturesA at h
    obtain ⟨g, hg, h⟩ := exBind_ok h
    obtain ⟨rest, hrest, h⟩ := exBind_ok h
    simp only [Except.ok.injEq] at h
    subst h
    obtain ⟨hg1, hgshape⟩ := processFeatureA_ok hg
    obtain ⟨ih1, ih2⟩ := ih hrest
    refine ⟨by simp [hg1, ih1], ?_⟩
    intro x hx
    rcases List.mem_cons.mp hx with rfl | hx2
    · exact hgshape
    · exact ih2 x hx2

theorem processFeaturesB_ok {up : List (String × Json)} {ti : Json}
    {fs ys : List Json} (h : processFeaturesB up ti fs = .ok ys) :
    ys = (fs.filter isLineStringFeature).map (emitBWith up ti) := by
  induction fs generalizing ys with
  | nil =>
    simp only [processFeaturesB, Except.ok.injEq] at h
    subst h
    simp
  | cons f fs ih =>
    unfold processFeaturesB at h
    obtain ⟨o, ho, h⟩ := exBind_ok h
    obtain ⟨rest, hrest, h⟩ := exBind_ok h
    have hov := processFeatureB_ok ho
    subst hov
    by_cases hf : isLineStringFeature f
    · simp only [hf, if_pos, if_true, Except.ok.injEq] at h
      subst h
      simp [List.filter_cons, hf, ih hrest]
    · simp only [hf, if_neg, if_false, Bool.false_eq_true, Except.ok.injEq] at h
      subst h
      simp [List.filter_cons, hf, ih hrest]

theorem processTrackA_ok {up : List (String × Json)} {ti ti2 : Json}
    {fs : List Json} (h : processTrackA up ti = .ok (fs, ti2)) :
    fs = (trackFeatures ti).map (emitAWith up ti) ∧
      ∀ f ∈ trackFeatures ti, ∃ fk, f = Json.obj fk := by
  unfold processTrackA at h
  obtain ⟨ifc, hifc, h⟩ := exBind_ok h
  cases ti with
  | obj tk =>
    simp only [pyGet, pyGetD, Except.ok.injEq] at hifc
    subst hifc
    rcases htl : lookupD tk "track" with _ | ifcv
    · rw [htl] at h
      simp only [Option.getD_none, truthy, if_pos, Except.ok.injEq,
        Prod.mk.injEq] at h
      simp [trackFeatures, htl, h.1.symm]
    · rw [htl] at h
      simp only [Option.getD_some] at h
      cases ifcv with
      | null =>
        simp only [truthy, if_pos, Except.ok.injEq, Prod.mk.injEq] at h
        simp [trackFeatures, htl, h.1.symm]
      | bool b =>
        cases b with
        | false =>
          simp only [truthy, if_pos, Except.ok.injEq, Prod.mk.injEq] at h
          simp [trackFeatures, htl, h.1.symm]
        | true =>
          simp only [truthy, Bool.true_eq_false, if_neg, if_false] at h
          obtain ⟨hasF, hin, h⟩ := exBind_ok h
          simp [pyIn] at hin
      | num n =>
        by_cases hn : n = 0
        · subst hn
          rw [if_pos (by decide)] at h
          simp only [Except.ok.injEq, Prod.mk.injEq] at h
          simp [trackFeatures, htl, h.1.symm]
        · rw [if_neg (by simp [truthy, hn])] at h
          obtain ⟨hasF, hin, h⟩ := exBind_ok h
          simp [pyIn] at hin
      | str s =>
        by_cases hs : s = ""
        · subst hs
          rw [if_pos (by decide)] at h
          simp only [Except.ok.injEq, Prod.mk.injEq] at h
          simp [trackFeatures, htl, h.1.symm]
        · rw [if_neg (by simp [truthy, hs])] at h
          obtain ⟨hasF, hin, h⟩ := exBind_ok h
          simp only [pyIn, Except.ok.injEq] at hin
          subst hin
          by_cases hc : strContains s "features" = false
          · rw [if_pos hc] at h
            simp only [Except.ok.injEq, Prod.mk.injEq] at h
            simp [trackFeatures, htl, h.1.symm]
          · rw [if_neg hc] at h
            obtain ⟨featsJ, hfj, h⟩ := exBind_ok h
            simp [pyGetD] at hfj
      | arr xs =>
        cases xs with
        | nil =>
          simp only [truthy, List.isEmpty_nil, Bool.not_true, if_pos,
            Except.ok.injEq, Prod.mk.injEq] at h
          simp [trackFeatures, htl, h.1.symm]
        | cons x xs =>
          rw [if_neg (by simp [truthy])] at h
          obtain ⟨hasF, hin, h⟩ := exBind_ok h
          simp only [pyIn, Except.ok.injEq] at hin
          subst hin
          by_cases hc : ((x :: xs).any fun y => Json.beq y (.str "features")) = false
          · rw [if_pos hc] at h
            simp only [Except.ok.injEq, Prod.mk.injEq] at h
            simp [trackFeatures, htl, h.1.symm]
          · rw [if_neg hc] at h
            obtain ⟨featsJ, hfj, h⟩ := exBind_ok h
            simp [pyGetD] at hfj
      | obj ikvs =>
        cases ikvs with
        | nil =>
          simp only [truthy, List.isEmpty_nil, Bool.not_true, if_pos,
            Except.ok.injEq, Prod.mk.injEq] at h
          simp [trackFeatures, htl, lookupD, h.1.symm]
        | cons kv0 ikvs0 =>
          rw [if_neg (by simp [truthy])] at h
          obtain ⟨hasF, hin, h⟩ := exBind_ok h
          simp only [pyIn, Except.ok.injEq] at hin
          subst hin
          rw [any_key_eq_isSome] at h
          rcases hfl : lookupD (kv0 :: ikvs0) "features" with _ | fv
          · rw [hfl] at h
            simp only [Option.isSome_none, if_pos, Except.ok.injEq,
              Prod.mk.injEq] at h
            simp [trackFeatures, htl, hfl, h.1.symm]
          · rw [hfl] at h
            simp only [Option.isSome_some, Bool.true_eq_false, if_neg,
              if_false] at h
            obtain ⟨featsJ, hfj, h⟩ := exBind_ok h
            simp only [pyGetD, hfl, Option.getD_some, Except.ok.injEq] at hfj
            subst hfj
            obtain ⟨feats, hit, h⟩ := exBind_ok h
            cases fv with
            | arr fs0 =>
              simp only [pyIter, Except.ok.injEq] at hit
              subst hit
              obtain ⟨newFeats, hnf, h⟩ := exBind_ok h
              obtain ⟨ifc2, hifc2, h⟩ := exBind_ok h
              obtain ⟨ti3, hti3, h⟩ := exBind_ok h
              simp only [Except.ok.injEq, Prod.mk.injEq] at h
              obtain ⟨hnf1, hnf2⟩ := processFeaturesA_ok hnf
              constructor
              · rw [← h.1, hnf1]
                simp [trackFeatures, htl, hfl]
              · intro x hx
                apply hnf2
                simpa [trackFeatures, htl, hfl] using hx
            | str s =>
              simp only [pyIter, Except.ok.injEq] at hit
              subst hit
              cases hsd : s.data with
              | nil =>
                rw [hsd] at h
                simp only [List.map_nil] at h
                obtain ⟨newFeats, hnf, h⟩ := exBind_ok h
                simp only [processFeaturesA, Except.ok.injEq] at hnf
                subst hnf
                simp only [Except.ok.injEq, Prod.mk.injEq] at h
                simp [trackFeatures, htl, hfl, h.1.symm]
              | cons c cs =>
                rw [hsd] at h
                simp only [List.map_cons] at h
                obtain ⟨newFeats, hnf, h⟩ := exBind_ok h
                unfold processFeaturesA at hnf
                obtain ⟨g, hg, _⟩ := exBind_ok hnf
                simp [processFeatureA, pyGetD, error_bind] at hg
            | obj kv2 =>
              simp only [pyIter, Except.ok.injEq] at hit
              subst hit
              cases kv2 with
              | nil =>
                simp only [List.map_nil] at h
                obtain ⟨newFeats, hnf, h⟩ := exBind_ok h
                simp only [processFeaturesA, Except.ok.injEq] at hnf
                subst hnf
                simp only [Except.ok.injEq, Prod.mk.injEq] at h
                simp [trackFeatures, htl, hfl, h.1.symm]
              | cons kv rest2 =>
                simp only [List.map_cons] at h
                obtain ⟨newFeats, hnf, h⟩ := exBind_ok h
                unfold processFeaturesA at hnf
                obtain ⟨g, hg, _⟩ := exBind_ok hnf
                simp [processFeatureA, pyGetD, error_bind] at hg
            | null => simp [pyIter] at hit
            | bool b2 => simp [pyIter] at hit
            | num n2 => simp [pyIter] at hit
  | null => simp [pyGet, pyGetD] at hifc
  | bool b => simp [pyGet, pyGetD] at hifc
  | num n => simp [pyGet, pyGetD] at hifc
  | str s => simp [pyGet, pyGetD] at hifc
  | arr xs => simp [pyGet, pyGetD] at hifc

theorem processTrackB_ok {up : List (String × Json)} {ti ti2 : Json}
    {fs : List Json} (h : processTrackB up ti = .ok (fs, ti2)) :
    fs = (trackFeaturesB ti).map (emitBWith up ti) := by
  unfold processTrackB at h
  obtain ⟨ifc, hifc, h⟩ := exBind_ok h
  cases ti with
  | obj tk =>
    simp only [pyGet, pyGetD, Except.ok.injEq] at hifc
    subst hifc
    rcases htl : lookupD tk "track" with _ | ifcv
    · rw [htl] at h
      simp only [Option.getD_none, truthy, if_pos, Except.ok.injEq,
        Prod.mk.injEq] at h
      simp [trackFeaturesB, trackFeatures, htl, h.1.symm]
    · rw [htl] at h
      simp only [Option.getD_some] at h
      cases ifcv with
      | null =>
        simp only [truthy, if_pos, Except.ok.injEq, Prod.mk.injEq] at h
        simp [trackFeaturesB, trackFeatures, htl, h.1.symm]
      | bool b =>
        cases b with
        | false =>
          simp only [truthy, if_pos, Except.ok.injEq, Prod.mk.injEq] at h
          simp [trackFeaturesB, trackFeatures, htl, h.1.symm]
        | true =>
          simp only [truthy, Bool.true_eq_false, if_neg, if_false] at h
          obtain ⟨hasF, hin, h⟩ := exBind_ok h
          simp [pyIn] at hin
      | num n =>
        by_cases hn : n = 0
        · subst hn
          rw [if_pos (by decide)] at h
          simp only [Except.ok.injEq, Prod.mk.injEq] at h
          simp [trackFeaturesB, trackFeatures, htl, h.1.symm]
        · rw [if_neg (by simp [truthy, hn])] at h
          obtain ⟨hasF, hin, h⟩ := exBind_ok h
          simp [pyIn] at hin
      | str s =>
        by_cases hs : s = ""
        · subst hs
          rw [if_pos (by decide)] at h
          simp only [Except.ok.injEq, Prod.mk.injEq] at h
          simp [trackFeaturesB, trackFeatures, htl, h.1.symm]
        · rw [if_neg (by simp [truthy, hs])] at h
          obtain ⟨hasF, hin, h⟩ := exBind_ok h
          simp only [pyIn, Except.ok.injEq] at hin
          subst hin
          by_cases hc : strContains s "features" = false
          · rw [if_pos hc] at h
            simp only [Except.ok.injEq, Prod.mk.injEq] at h
            simp [trackFeaturesB, trackFeatures, htl, h.1.symm]
          · rw [if_neg hc] at h
            obtain ⟨featsJ, hfj, h⟩ := exBind_ok h
            simp [pyGetD] at hfj
      | arr xs =>
        cases xs with
        | nil =>
          simp only [truthy, List.isEmpty_nil, Bool.not_true, if_pos,
            Except.ok.injEq, Prod.mk.injEq] at h
          simp [trackFeaturesB, trackFeatures, htl, h.1.symm]
        | cons x xs =>
          rw [if_neg (by simp [truthy])] at h
          obtain ⟨hasF, hin, h⟩ := exBind_ok h
          simp only [pyIn, Except.ok.injEq] at hin
          subst hin
          by_cases hc : ((x :: xs).any fun y => Json.beq y (.str "features")) = false
          · rw [if_pos hc] at h
            simp only [Except.ok.injEq, Prod.mk.injEq] at h
            simp [trackFeaturesB, trackFeatures, htl, h.1.symm]
          · rw [if_neg hc] at h
            obtain ⟨featsJ, hfj, h⟩ := exBind_ok h
            simp [pyGetD] at hfj
      | obj ikvs =>
        cases ikvs with
        | nil =>
          simp only [truthy, List.isEmpty_nil, Bool.not_true, if_pos,
            Except.ok.injEq, Prod.mk.injEq] at h
          simp [trackFeaturesB, trackFeatures, htl, lookupD, h.1.symm]
        | cons kv0 ikvs0 =>
          rw [if_neg (by simp [truthy])] at h
          obtain ⟨hasF, hin, h⟩ := exBind_ok h
          simp only [pyIn, Except.ok.injEq] at hin
          subst hin
          rw [any_key_eq_isSome] at h
          rcases hfl : lookupD (kv0 :: ikvs0) "features" with _ | fv
          · rw [hfl] at h
            simp only [Option.isSome_none, if_pos, Except.ok.injEq,
              Prod.mk.injEq] at h
            simp [trackFeaturesB, trackFeatures, htl, hfl, h.1.symm]
          · rw [hfl] at h
            simp only [Option.isSome_some, Bool.true_eq_false, if_neg,
              if_false] at h
            obtain ⟨featsJ, hfj, h⟩ := exBind_ok h
            simp only [pyGetD, hfl, Option.getD_some, Except.ok.injEq] at hfj
            subst hfj
            obtain ⟨feats, hit, h⟩ := exBind_ok h
            cases fv with
            | arr fs0 =>
              simp only [pyIter, Except.ok.injEq] at hit
              subst hit
              obtain ⟨newFeats, hnf, h⟩ := exBind_ok h
              simp only [Except.ok.injEq, Prod.mk.injEq] at h
              rw [← h.1]
              rw [processFeaturesB_ok hnf]
              simp [trackFeaturesB, trackFeatures, htl, hfl]
            | str s =>
              simp only [pyIter, Except.ok.injEq] at hit
              subst hit
              cases hsd : s.data with
              | nil =>
                rw [hsd] at h
                simp only [List.map_nil] at h
                obtain ⟨newFeats, hnf, h⟩ := exBind_ok h
                simp only [processFeaturesB, Except.ok.injEq] at hnf
                subst hnf
                simp only [Except.ok.injEq, Prod.mk.injEq] at h
                simp [trackFeaturesB, trackFeatures, htl, hfl, h.1.symm]
              | cons c cs =>
                rw [hsd] at h
                simp only [List.map_cons] at h
                obtain ⟨newFeats, hnf, h⟩ := exBind_ok h
                unfold processFeaturesB at hnf
                obtain ⟨g, hg, _⟩ := exBind_ok hnf
                simp [processFeatureB, pyGetD, error_bind] at hg
            | obj kv2 =>
              simp only [pyIter, Except.ok.injEq] at hit
              subst hit
              cases kv2 with
              | nil =>
                simp only [List.map_nil] at h
                obtain ⟨newFeats, hnf, h⟩ := exBind_ok h
                simp only [processFeaturesB, Except.ok.injEq] at hnf
                subst hnf
                simp only [Except.ok.injEq, Prod.mk.injEq] at h
                simp [trackFeaturesB, trackFeatures, htl, hfl, h.1.symm]
              | cons kv rest2 =>
                simp only [List.map_cons] at h
                obtain ⟨newFeats, hnf, h⟩ := exBind_ok h
                unfold processFeaturesB at hnf
                obtain ⟨g, hg, _⟩ := exBind_ok hnf
                simp [processFeatureB, pyGetD, error_bind] at hg
            | null => simp [pyIter] at hit
            | bool b2 => simp [pyIter] at hit
            | num n2 => simp [pyIter] at hit
  | null => simp [pyGet, pyGetD] at hifc
  | bool b => simp [pyGet, pyGetD] at hifc
  | num n => simp [pyGet, pyGetD] at hifc
  | str s => simp [pyGet, pyGetD] at hifc
  | arr xs => simp [pyGet, pyGetD] at hifc

theorem userPropsOf_shape {item : Json} {up : List (String × Json)}
    (h : userPropsOf item = .ok up) :
    up = userPropsPure item ∧ ∃ kvs, item = .obj kvs := by
  unfold userPropsOf at h
  obtain ⟨a, ha, h⟩ := exBind_ok h
  obtain ⟨b, hb, h⟩ := exBind_ok h
  obtain ⟨c, hc, h⟩ := exBind_ok h
  obtain ⟨d, hd, h⟩ := exBind_ok h
  cases item with
  | obj ik =>
    simp only [pyGet, pyGetD, Except.ok.injEq] at ha hb hc hd
    subst ha; subst hb; subst hc; subst hd
    simp only [Except.ok.injEq] at h
    subst h
    exact ⟨by simp [userPropsPure, objGet], ik, rfl⟩
  | null => simp [pyGet, pyGetD] at ha
  | bool bb => simp [pyGet, pyGetD] at ha
  | num n => simp [pyGet, pyGetD] at ha
  | str s => simp [pyGet, pyGetD] at ha
  | arr xs => simp [pyGet, pyGetD] at ha

theorem processTracksA_ok {up : List (String × Json)} {item : Json}
    {ts fs ts2 : List Json} (h : processTracksA up ts = .ok (fs, ts2))
    (hup : up = userPropsPure item) :
    fs = (tracksTriples item ts).map emitA3 ∧
      ∀ t ∈ tracksTriples item ts, ∃ fk, t.2.2 = Json.obj fk := by
  induction ts generalizing fs ts2 with
  | nil =>
    simp only [processTracksA, Except.ok.injEq, Prod.mk.injEq] at h
    simp [tracksTriples, h.1.symm]
  | cons ti ts ih =>
    unfold processTracksA at h
    obtain ⟨p, hp, h⟩ := exBind_ok h
    obtain ⟨fs1, ti3⟩ := p
    obtain ⟨q, hq, h⟩ := exBind_ok h
    obtain ⟨rest, ts3⟩ := q
    simp only [Except.ok.injEq, Prod.mk.injEq] at h
    obtain ⟨ht1, ht2⟩ := processTrackA_ok hp
    obtain ⟨ih1, ih2⟩ := ih hq
    constructor
    · rw [← h.1, ht1, ih1]
      simp [tracksTriples, trackTriples, emitA3, hup]
    · intro t htm
      simp only [tracksTriples, List.mem_append] at htm
      rcases htm with htm | htm
      · simp only [trackTriples, List.mem_map] at htm
        obtain ⟨f, hf, rfl⟩ := htm
        exact ht2 f hf
      · exact ih2 t htm

theorem processTracksB_ok {up : List (String × Json)} {item : Json}
    {ts fs ts2 : List Json} (h : processTracksB up ts = .ok (fs, ts2))
    (hup : up = userPropsPure item) :
    fs = (tracksTriplesB item ts).map emitB3 := by
  induction ts generalizing fs ts2 with
  | nil =>
    simp only [processTracksB, Except.ok.injEq, Prod.mk.injEq] at h
    simp [tracksTriplesB, h.1.symm]
  | cons ti ts ih =>
    unfold processTracksB at h
    obtain ⟨p, hp, h⟩ := exBind_ok h
    obtain ⟨fs1, ti3⟩ := p
    obtain ⟨q, hq, h⟩ := exBind_ok h
    obtain ⟨rest, ts3⟩ := q
    simp only [Except.ok.injEq, Prod.mk.injEq] at h
    rw [← h.1]
    rw [processTrackB_ok hp, ih hq]
    simp [tracksTriplesB, trackTriplesB, emitB3, hup]

theorem processItemA_ok {item : Json} {fs : List Json} {item2 : Json}
    (h : processItemA item = .ok (fs, item2)) :
    fs = (itemTriples item).map emitA3 ∧
      ∀ t ∈ itemTriples item, ∃ fk, t.2.2 = Json.obj fk := by
  unfold processItemA at h
  obtain ⟨up, hup, h⟩ := exBind_ok h
  obtain ⟨hup2, ik, hik⟩ := userPropsOf_shape hup
  subst hik
  obtain ⟨tracksJ, htj, h⟩ := exBind_ok h
  simp only [pyGetD, Except.ok.injEq] at htj
  subst htj
  rcases htl : lookupD ik "tracks" with _ | tv
  · rw [htl] at h
    simp only [Option.getD_none] at h
    obtain ⟨p, hp, h⟩ := exBind_ok h
    obtain ⟨fs1, ts3⟩ := p
    simp only [processTracksA, Except.ok.injEq, Prod.mk.injEq] at hp
    rw [htl] at h
    obtain ⟨i2, hi2, h⟩ := exBind_ok h
    simp only [Except.ok.injEq, Prod.mk.injEq] at h
    rw [← h.1, ← hp.1]
    simp [itemTriples, htl]
  · rw [htl] at h
    simp only [Option.getD_some] at h
    cases tv with
    | arr ts =>
      obtain ⟨p, hp, h⟩ := exBind_ok h
      obtain ⟨fs1, ts3⟩ := p
      rw [htl] at h
      obtain ⟨i2, hi2, h⟩ := exBind_ok h
      simp only [Except.ok.injEq, Prod.mk.injEq] at h
      obtain ⟨hts1, hts2⟩ := processTracksA_ok hp hup2
      constructor
      · rw [← h.1, hts1]
        simp [itemTriples, htl]
      · intro t htm
        apply hts2
        simpa [itemTriples, htl] using htm
    | null =>
      simp only [Except.ok.injEq, Prod.mk.injEq] at h
      simp [itemTriples, htl, h.1.symm]
    | bool b =>
      simp only [Except.ok.injEq, Prod.mk.injEq] at h
      simp [itemTriples, htl, h.1.symm]
    | num n =>
      simp only [Except.ok.injEq, Prod.mk.injEq] at h
      simp [itemTriples, htl, h.1.symm]
    | str s =>
      simp only [Except.ok.injEq, Prod.mk.injEq] at h
      simp [itemTriples, htl, h.1.symm]
    | obj kvs =>
      simp only [Except.ok.injEq, Prod.mk.injEq] at h
      simp [itemTriples, htl, h.1.symm]

theorem processItemB_ok {item : Json} {fs : List Json} {item2 : Json}
    (h : processItemB item = .ok (fs, item2)) :
    fs = (itemTriplesB item).map emitB3 := by
  unfold processItemB at h
  obtain ⟨up, hup, h⟩ := exBind_ok h
  obtain ⟨hup2, ik, hik⟩ := userPropsOf_shape hup
  subst hik
  obtain ⟨tracksJ, htj, h⟩ := exBind_ok h
  simp only [pyGetD, Except.ok.injEq] at htj
  subst htj
  rcases htl : lookupD ik "tracks" with _ | tv
  · rw [htl] at h
    simp only [Option.getD_none] at h
    obtain ⟨p, hp, h⟩ := exBind_ok h
    obtain ⟨fs1, ts3⟩ := p
    simp only [processTracksB, Except.ok.injEq, Prod.mk.injEq] at hp
    simp only [Except.ok.injEq, Prod.mk.injEq] at h
    rw [← h.1, ← hp.1]
    simp [itemTriplesB, htl]
  · rw [htl] at h
    simp only [Option.getD_some] at h
    cases tv with
    | arr ts =>
      obtain ⟨p, hp, h⟩ := exBind_ok h
      obtain ⟨fs1, ts3⟩ := p
      simp only [Except.ok.injEq, Prod.mk.injEq] at h
      rw [← h.1]
      rw [processTracksB_ok hp hup2]
      simp [itemTriplesB, htl]
    | null =>
      simp only [Except.ok.injEq, Prod.mk.injEq] at h
      simp [itemTriplesB, htl, h.1.symm]
    | bool b =>
      simp only [Except.ok.injEq, Prod.mk.injEq] at h
      simp [itemTriplesB, htl, h.1.symm]
    | num n =>
      simp only [Except.ok.injEq, Prod.mk.injEq] at h
      simp [itemTriplesB, htl, h.1.symm]
    | str s =>
      simp only [Except.ok.injEq, Prod.mk.injEq] at h
      simp [itemTriplesB, htl, h.1.symm]
    | obj kvs =>
      simp only [Except.ok.injEq, Prod.mk.injEq] at h
      simp [itemTriplesB, htl, h.1.symm]

theorem processItemsA_ok {items fs is2 : List Json}
    (h : processItemsA items = .ok (fs, is2)) :
    fs = (itemsTriples items).map emitA3 ∧
      ∀ t ∈ itemsTriples items, ∃ fk, t.2.2 = Json.obj fk := by
  induction items generalizing fs is2 with
  | nil =>
    simp only [processItemsA, Except.ok.injEq, Prod.mk.injEq] at h
    simp [itemsTriples, h.1.symm]
  | cons i is ih =>
    unfold processItemsA at h
    obtain ⟨p, hp, h⟩ := exBind_ok h
    obtain ⟨fs1, i3⟩ := p
    obtain ⟨q, hq, h⟩ := exBind_ok h
    obtain ⟨rest, is3⟩ := q
    simp only [Except.ok.injEq, Prod.mk.injEq] at h
    obtain ⟨hi1, hi2s⟩ := processItemA_ok hp
    obtain ⟨ih1, ih2⟩ := ih hq
    constructor
    · rw [← h.1, hi1, ih1]
      simp [itemsTriples]
    · intro t htm
      simp only [itemsTriples, List.mem_append] at htm
      rcases htm with htm | htm
      · exact hi2s t htm
      · exact ih2 t htm

theorem processItemsB_ok {items fs is2 : List Json}
    (h : processItemsB items = .ok (fs, is2)) :
    fs = (itemsTriplesB items).map emitB3 := by
  induction items generalizing fs is2 with
  | nil =>
    simp only [processItemsB, Except.ok.injEq, Prod.mk.injEq] at h
    simp [itemsTriplesB, h.1.symm]
  | cons i is ih =>
    unfold processItemsB at h
    obtain ⟨p, hp, h⟩ := exBind_ok h
    obtain ⟨fs1, i3⟩ := p
    obtain ⟨q, hq, h⟩ := exBind_ok h
    obtain ⟨rest, is3⟩ := q
    simp only [Except.ok.injEq, Prod.mk.injEq] at h
    rw [← h.1]
    rw [processItemB_ok hp, ih hq]
    simp [itemsTriplesB]

theorem extractA_ok {doc : Json} {r : ExtractResult} {d2 : Json}
    (h : extractA doc = .ok (r, d2)) :
    (r = .itemsNotList ∧ ∃ kvs v, doc = Json.obj kvs ∧
      lookupD kvs "items" = some v ∧ v.isArr = false) ∨
      (r = (if ((eligTriples doc).map emitA3).isEmpty then .empty
        else .success ((eligTriples doc).map emitA3)) ∧
       ∀ t ∈ eligTriples doc, ∃ fk, t.2.2 = Json.obj fk) := by
  unfold extractA at h
  obtain ⟨itemsJ, hij, h⟩ := exBind_ok h
  cases doc with
  | obj kvs =>
    simp only [pyGetD, Except.ok.injEq] at hij
    subst hij
    rcases hil : lookupD kvs "items" with _ | iv
    · rw [hil] at h
      simp only [Option.getD_none] at h
      obtain ⟨p, hp, h⟩ := exBind_ok h
      obtain ⟨fs1, is3⟩ := p
      simp only [processItemsA, Except.ok.injEq, Prod.mk.injEq] at hp
      rw [hil] at h
      obtain ⟨d3, hd3, h⟩ := exBind_ok h
      rw [← hp.1] at h
      rw [if_pos (by simp)] at h
      simp only [Except.ok.injEq, Prod.mk.injEq] at h
      right
      refine ⟨?_, by simp [eligTriples, hil]⟩
      rw [← h.1]
      simp [eligTriples, hil, itemsTriples]
    · rw [hil] at h
      simp only [Option.getD_some] at h
      cases iv with
      | arr items =>
        obtain ⟨p, hp, h⟩ := exBind_ok h
        obtain ⟨fs1, is3⟩ := p
        obtain ⟨hfs, hshape⟩ := processItemsA_ok hp
        rw [hil] at h
        obtain ⟨d3, hd3, h⟩ := exBind_ok h
        by_cases hemp : fs1.isEmpty
        · rw [if_pos hemp] at h
          simp only [Except.ok.injEq, Prod.mk.injEq] at h
          right
          refine ⟨?_, by simpa [eligTriples, hil] using hshape⟩
          rw [← h.1]
          rw [if_pos (by simp [eligTriples, hil, ← hfs, hemp])]
        · rw [if_neg hemp] at h
          simp only [Except.ok.injEq, Prod.mk.injEq] at h
          right
          refine ⟨?_, by simpa [eligTriples, hil] using hshape⟩
          rw [← h.1]
          rw [if_neg (by simp [eligTriples, hil, ← hfs, hemp])]
          simp [eligTriples, hil, hfs]
      | null =>
        simp only [Except.ok.injEq, Prod.mk.injEq] at h
        exact Or.inl ⟨h.1.symm, kvs, Json.null, rfl, hil, rfl⟩
      | bool b =>
        simp only [Except.ok.injEq, Prod.mk.injEq] at h
        exact Or.inl ⟨h.1.symm, kvs, Json.bool b, rfl, hil, rfl⟩
      | num n =>
        simp only [Except.ok.injEq, Prod.mk.injEq] at h
        exact Or.inl ⟨h.1.symm, kvs, Json.num n, rfl, hil, rfl⟩
      | str s =>
        simp only [Except.ok.injEq, Prod.mk.injEq] at h
        exact Or.inl ⟨h.1.symm, kvs, Json.str s, rfl, hil, rfl⟩
      | obj kvs2 =>
        simp only [Except.ok.injEq, Prod.mk.injEq] at h
        exact Or.inl ⟨h.1.symm, kvs, Json.obj kvs2, rfl, hil, rfl⟩
  | null => simp [pyGetD] at hij
  | bool b => simp [pyGetD] at hij
  | num n => simp [pyGetD] at hij
  | str s => simp [pyGetD] at hij
  | arr xs => simp [pyGetD] at hij

theorem extractB_ok {doc : Json} {r : ExtractResult} {d2 : Json}
    (h : extractB doc = .ok (r, d2)) :
    (r = .itemsNotList ∧ ∃ kvs v, doc = Json.obj kvs ∧
      lookupD kvs "items" = some v ∧ v.isArr = false) ∨
      r = (if ((eligTriplesB doc).map emitB3).isEmpty then .empty
        else .success ((eligTriplesB doc).map emitB3)) := by
  unfold extractB at h
  obtain ⟨itemsJ, hij, h⟩ := exBind_ok h
  cases doc with
  | obj kvs =>
    simp only [pyGetD, Except.ok.injEq] at hij
    subst hij
    rcases hil : lookupD kvs "items" with _ | iv
    · rw [hil] at h
      simp only [Option.getD_none] at h
      obtain ⟨p, hp, h⟩ := exBind_ok h
      obtain ⟨fs1, is3⟩ := p
      simp only [processItemsB, Except.ok.injEq, Prod.mk.injEq] at hp
      rw [← hp.1] at h
      rw [if_pos (by simp)] at h
      simp only [Except.ok.injEq, Prod.mk.injEq] at h
      right
      rw [← h.1]
      simp [eligTriplesB, hil, itemsTriplesB]
    · rw [hil] at h
      simp only [Option.getD_some] at h
      cases iv with
      | arr items =>
        obtain ⟨p, hp, h⟩ := exBind_ok h
        obtain ⟨fs1, is3⟩ := p
        have hfs := processItemsB_ok hp
        by_cases hemp : fs1.isEmpty
        · rw [if_pos hemp] at h
          simp only [Except.ok.injEq, Prod.mk.injEq] at h
          right
          rw [← h.1]
          rw [if_pos (by simp [eligTriplesB, hil, ← hfs, hemp])]
        · rw [if_neg hemp] at h
          simp only [Except.ok.injEq, Prod.mk.injEq] at h
          right
          rw [← h.1]
          rw [if_neg (by simp [eligTriplesB, hil, ← hfs, hemp])]
          simp [eligTriplesB, hil, hfs]
      | null =>
        simp only [Except.ok.injEq, Prod.mk.injEq] at h
        exact Or.inl ⟨h.1.symm, kvs, Json.null, rfl, hil, rfl⟩
      | bool b =>
        simp only [Except.ok.injEq, Prod.mk.injEq] at h
        exact Or.inl ⟨h.1.symm, kvs, Json.bool b, rfl, hil, rfl⟩
      | num n =>
        simp only [Except.ok.injEq, Prod.mk.injEq] at h
        exact Or.inl ⟨h.1.symm, kvs, Json.num n, rfl, hil, rfl⟩
      | str s =>
        simp only [Except.ok.injEq, Prod.mk.injEq] at h
        exact Or.inl ⟨h.1.symm, kvs, Json.str s, rfl, hil, rfl⟩
      | obj kvs2 =>
        simp only [Except.ok.injEq, Prod.mk.injEq] at h
        exact Or.inl ⟨h.1.symm, kvs, Json.obj kvs2, rfl, hil, rfl⟩
  | null => simp [pyGetD] at hij
  | bool b => simp [pyGetD] at hij
  | num n => simp [pyGetD] at hij
  | str s => simp [pyGetD] at hij
  | arr xs => simp [pyGetD] at hij

theorem extractB_preserves_doc {doc : Json} {r : ExtractResult} {d2 : Json}
    (h : extractB doc = .ok (r, d2)) : d2 = doc := by
  unfold extractB at h
  obtain ⟨itemsJ, hij, h⟩ := exBind_ok h
  cases doc with
  | obj kvs =>
    simp only [pyGetD, Except.ok.injEq] at hij
    subst hij
    cases hv : (lookupD kvs "items").getD (Json.arr []) with
    | arr items =>
      rw [hv] at h
      obtain ⟨p, hp, h⟩ := exBind_ok h
      obtain ⟨fs1, is3⟩ := p
      have h2 : (if fs1.isEmpty = true
          then (Except.ok (ExtractResult.empty, Json.obj kvs) :
            Except PyErr (ExtractResult × Json))
          else .ok (.success fs1, .obj kvs)) = .ok (r, d2) := h
      by_cases hemp : fs1.isEmpty
      · rw [if_pos hemp] at h2
        simp only [Except.ok.injEq, Prod.mk.injEq] at h2
        exact h2.2.symm
      · rw [if_neg hemp] at h2
        simp only [Except.ok.injEq, Prod.mk.injEq] at h2
        exact h2.2.symm
    | null =>
      rw [hv] at h
      simp only [Except.ok.injEq, Prod.mk.injEq] at h
      exact h.2.symm
    | bool b =>
      rw [hv] at h
      simp only [Except.ok.injEq, Prod.mk.injEq] at h
      exact h.2.symm
    | num n =>
      rw [hv] at h
      simp only [Except.ok.injEq, Prod.mk.injEq] at h
      exact h.2.symm
    | str s =>
      rw [hv] at h
      simp only [Except.ok.injEq, Prod.mk.injEq] at h
      exact h.2.symm
    | obj kvs2 =>
      rw [hv] at h
      simp only [Except.ok.injEq, Prod.mk.injEq] at h
      exact h.2.symm
  | null => simp [pyGetD] at hij
  | bool b => simp [pyGetD] at hij
  | num n => simp [pyGetD] at hij
  | str s => simp [pyGetD] at hij
  | arr xs => simp [pyGetD] at hij

/-- The nine property keys injected by the merge (user-level, then
track-level). -/
def injectedKeys : List String :=
  ["userId", "ageGroup", "countryCode", "gender",
   "trackId", "activity", "locationCountry", "summary", "resort"]

theorem mergedProps_lookup_userId (item ti : Json) (p0 : List (String × Json)) :
    lookupD (mergedPropsWith (userPropsPure item) ti p0) "userId"
      = some (objGet item "userId") := by
  simp [mergedPropsWith, dupdate, userPropsPure,
    lookupD_dset_self, lookupD_dset_other]

theorem mergedProps_lookup_ageGroup (item ti : Json) (p0 : List (String × Json)) :
    lookupD (mergedPropsWith (userPropsPure item) ti p0) "ageGroup"
      = some (objGet item "ageGroup") := by
  simp [mergedPropsWith, dupdate, userPropsPure,
    lookupD_dset_self, lookupD_dset_other]

theorem mergedProps_lookup_countryCode (item ti : Json) (p0 : List (String × Json)) :
    lookupD (mergedPropsWith (userPropsPure item) ti p0) "countryCode"
      = some (objGet item "countryCode") := by
  simp [mergedPropsWith, dupdate, userPropsPure,
    lookupD_dset_self, lookupD_dset_other]

theorem mergedProps_lookup_gender (item ti : Json) (p0 : List (String × Json)) :
    lookupD (mergedPropsWith (userPropsPure item) ti p0) "gender"
      = some (objGet item "gender") := by
  simp [mergedPropsWith, dupdate, userPropsPure,
    lookupD_dset_self, lookupD_dset_other]

theorem mergedProps_lookup_trackId (item ti : Json) (p0 : List (String × Json)) :
    lookupD (mergedPropsWith (userPropsPure item) ti p0) "trackId"
      = some (objGet ti "trackId") := by
  simp [mergedPropsWith, dupdate, userPropsPure,
    lookupD_dset_self, lookupD_dset_other]

theorem mergedProps_lookup_activity (item ti : Json) (p0 : List (String × Json)) :
    lookupD (mergedPropsWith (userPropsPure item) ti p0) "activity"
      = some (objGet ti "activity") := by
  simp [mergedPropsWith, dupdate, userPropsPure,
    lookupD_dset_self, lookupD_dset_other]

theorem mergedProps_lookup_locationCountry (item ti : Json)
    (p0 : List (String × Json)) :
    lookupD (mergedPropsWith (userPropsPure item) ti p0) "locationCountry"
      = some (objGet ti "locationCountry") := by
  simp [mergedPropsWith, dupdate, userPropsPure,
    lookupD_dset_self, lookupD_dset_other]

theorem mergedProps_lookup_summary (item ti : Json) (p0 : List (String × Json)) :
    lookupD (mergedPropsWith (userPropsPure item) ti p0) "summary"
      = some (objGet ti "summary") := by
  simp [mergedPropsWith, dupdate, userPropsPure,
    lookupD_dset_self, lookupD_dset_other]

theorem mergedProps_lookup_resort (item ti : Json) (p0 : List (String × Json)) :
    lookupD (mergedPropsWith (userPropsPure item) ti p0) "resort"
      = some (objGet ti "resort") := by
  simp [mergedPropsWith, dupdate, userPropsPure,
    lookupD_dset_self, lookupD_dset_other]

theorem mergedProps_frame (item ti : Json) (p0 : List (String × Json))
    (k : String) (hk : k ∉ injectedKeys) :
    lookupD (mergedPropsWith (userPropsPure item) ti p0) k = lookupD p0 k := by
  simp only [injectedKeys, List.mem_cons, List.not_mem_nil, or_false,
    not_or] at hk
  obtain ⟨h1, h2, h3, h4, h5, h6, h7, h8, h9⟩ := hk
  simp [mergedPropsWith, dupdate, userPropsPure, lookupD_dset_other,
    h1, h2, h3, h4, h5, h6, h7, h8, h9]

theorem propsOfFeature_emitA (up : List (String × Json)) (ti : Json)
    (fk : List (String × Json)) :
    propsOfFeature (emitAWith up ti (.obj fk))
      = mergedPropsWith up ti (propsOfFeature (.obj fk)) := by
  simp [emitAWith, propsOfFeature, lookupD_dset_self]

theorem propsOfFeature_emitB (up : List (String × Json)) (ti f : Json) :
    propsOfFeature (emitBWith up ti f)
      = mergedPropsWith up ti (propsOfFeature f) := by
  simp [emitBWith, propsOfFeature, lookupD]

theorem objGet_emitB_geometry (up : List (String × Json)) (ti f : Json) :
    objGet (emitBWith up ti f) "geometry"
      = .obj [("type", .str "MultiPoint"), ("coordinates", coordsOf f)] := by
  simp [emitBWith, objGet, lookupD]

theorem extractA_success {doc : Json} {fs : List Json} {d2 : Json}
    (h : extractA doc = .ok (.success fs, d2)) :
    fs = (eligTriples doc).map emitA3 ∧
      ∀ t ∈ eligTriples doc, ∃ fk, t.2.2 = Json.obj fk := by
  rcases extractA_ok h with ⟨h1, _⟩ | ⟨h1, hshape⟩
  · exact absurd h1 (by simp)
  · refine ⟨?_, hshape⟩
    by_cases hemp : ((eligTriples doc).map emitA3).isEmpty
    · rw [if_pos hemp] at h1
      exact absurd h1 (by simp)
    · rw [if_neg hemp] at h1
      simpa using h1

theorem extractB_success {doc : Json} {fs : List Json} {d2 : Json}
    (h : extractB doc = .ok (.success fs, d2)) :
    fs = (eligTriplesB doc).map emitB3 := by
  rcases extractB_ok h with ⟨h1, _⟩ | h1
  · exact absurd h1 (by simp)
  · by_cases hemp : ((eligTriplesB doc).map emitB3).isEmpty
    · rw [if_pos hemp] at h1
      exact absurd h1 (by simp)
    · rw [if_neg hemp] at h1
      simpa using h1

theorem tracksTriplesB_lineString {item : Json} {ts : List Json}
    {t : Json × Json × Json} (ht : t ∈ tracksTriplesB item ts) :
    isLineStringFeature t.2.2 = true := by
  induction ts with
  | nil => simp [tracksTriplesB] at ht
  | cons ti ts ih =>
    simp only [tracksTriplesB, List.mem_append] at ht
    rcases ht with ht | ht
    · simp only [trackTriplesB, List.mem_map] at ht
      obtain ⟨f, hf, rfl⟩ := ht
      simpa using List.of_mem_filter (by simpa [trackFeaturesB] using hf)
    · exact ih ht

theorem itemTriplesB_lineString {item : Json} {t : Json × Json × Json}
    (ht : t ∈ itemTriplesB item) : isLineStringFeature t.2.2 = true := by
  cases item with
  | obj kvs =>
    simp only [itemTriplesB] at ht
    rcases hl : lookupD kvs "tracks" with _ | v
    · rw [hl] at ht
      simp at ht
    · rw [hl] at ht
      cases v with
      | arr ts => exact tracksTriplesB_lineString ht
      | null => simp at ht
      | bool b => simp at ht
      | num n => simp at ht
      | str s => simp at ht
      | obj kvs2 => simp at ht
  | null => simp [itemTriplesB] at ht
  | bool b => simp [itemTriplesB] at ht
  | num n => simp [itemTriplesB] at ht
  | str s => simp [itemTriplesB] at ht
  | arr xs => simp [itemTriplesB] at ht

theorem itemsTriplesB_lineString {items : List Json} {t : Json × Json × Json}
    (ht : t ∈ itemsTriplesB items) : isLineStringFeature t.2.2 = true := by
  induction items with
  | nil => simp [itemsTriplesB] at ht
  | cons i is ih =>
    simp only [itemsTriplesB, List.mem_append] at ht
    rcases ht with ht | ht
    · exact itemTriplesB_lineString ht
    · exact ih ht

theorem eligTriplesB_lineString {doc : Json} {t : Json × Json × Json}
    (ht : t ∈ eligTriplesB doc) : isLineStringFeature t.2.2 = true := by
  cases doc with
  | obj kvs =>
    simp only [eligTriplesB] at ht
    rcases hl : lookupD kvs "items" with _ | v
    · rw [hl] at ht
      simp at ht
    · rw [hl] at ht
      cases v with
      | arr items => exact itemsTriplesB_lineString ht
      | null => simp at ht
      | bool b => simp at ht
      | num n => simp at ht
      | str s => simp at ht
      | obj kvs2 => simp at ht
  | null => simp [eligTriplesB] at ht
  | bool b => simp [eligTriplesB] at ht
  | num n => simp [eligTriplesB] at ht
  | str s => simp [eligTriplesB] at ht
  | arr xs => simp [eligTriplesB] at ht

/-!
## Claim theorems
-/

/-- C1: for every well-formed input document and every feature emitted
by either variant, the emitted feature's properties equal the original
properties shallow-copied, overlaid first with the user-level fields
`userId`, `ageGroup`, `countryCode`, `gender` (taken from the
enclosing user record, `null` when absent — `objGet` returns `null`
for absent keys), then with the track-level fields `trackId`,
`activity`, `locationCountry`, `summary`, `resort` (from the enclosing
track record, `null` when absent); an injected key always wins over a
pre-existing key of the original properties, and every other key keeps
its original value. -/
theorem c1_property_merge (doc : Json) :
    (∀ fs d2 g, extractA doc = .ok (.success fs, d2) → g ∈ fs →
      ∃ t ∈ eligTriples doc,
        lookupD (propsOfFeature g) "userId" = some (objGet t.1 "userId") ∧
        lookupD (propsOfFeature g) "ageGroup" = some (objGet t.1 "ageGroup") ∧
        lookupD (propsOfFeature g) "countryCode"
          = some (objGet t.1 "countryCode") ∧
        lookupD (propsOfFeature g) "gender" = some (objGet t.1 "gender") ∧
        lookupD (propsOfFeature g) "trackId" = some (objGet t.2.1 "trackId") ∧
        lookupD (propsOfFeature g) "activity" = some (objGet t.2.1 "activity") ∧
        lookupD (propsOfFeature g) "locationCountry"
          = some (objGet t.2.1 "locationCountry") ∧
        lookupD (propsOfFeature g) "summary" = some (objGet t.2.1 "summary") ∧
        lookupD (propsOfFeature g) "resort" = some (objGet t.2.1 "resort") ∧
        ∀ k, k ∉ injectedKeys →
          lookupD (propsOfFeature g) k = lookupD (propsOfFeature t.2.2) k) ∧
    (∀ fs d2 g, extractB doc = .ok (.success fs, d2) → g ∈ fs →
      ∃ t ∈ eligTriplesB doc,
        lookupD (propsOfFeature g) "userId" = some (objGet t.1 "userId") ∧
        lookupD (propsOfFeature g) "ageGroup" = some (objGet t.1 "ageGroup") ∧
        lookupD (propsOfFeature g) "countryCode"
          = some (objGet t.1 "countryCode") ∧
        lookupD (propsOfFeature g) "gender" = some (objGet t.1 "gender") ∧
        lookupD (propsOfFeature g) "trackId" = some (objGet t.2.1 "trackId") ∧
        lookupD (propsOfFeature g) "activity" = some (objGet t.2.1 "activity") ∧
        lookupD (propsOfFeature g) "locationCountry"
          = some (objGet t.2.1 "locationCountry") ∧
        lookupD (propsOfFeature g) "summary" = some (objGet t.2.1 "summary") ∧
        lookupD (propsOfFeature g) "resort" = some (objGet t.2.1 "resort") ∧
        ∀ k, k ∉ injectedKeys →
          lookupD (propsOfFeature g) k = lookupD (propsOfFeature t.2.2) k) := by
  constructor
  · intro fs d2 g h hg
    obtain ⟨hfs, hshape⟩ := extractA_success h
    rw [hfs] at hg
    obtain ⟨t, ht, rfl⟩ := List.mem_map.mp hg
    refine ⟨t, ht, ?_⟩
    obtain ⟨fk, hfk⟩ := hshape t ht
    have hp : propsOfFeature (emitA3 t)
        = mergedPropsWith (userPropsPure t.1) t.2.1 (propsOfFeature t.2.2) := by
      simp only [emitA3]
      rw [hfk, propsOfFeature_emitA]
    rw [hp]
    exact ⟨mergedProps_lookup_userId t.1 t.2.1 _,
      mergedProps_lookup_ageGroup t.1 t.2.1 _,
      mergedProps_lookup_countryCode t.1 t.2.1 _,
      mergedProps_lookup_gender t.1 t.2.1 _,
      mergedProps_lookup_trackId t.1 t.2.1 _,
      mergedProps_lookup_activity t.1 t.2.1 _,
      mergedProps_lookup_locationCountry t.1 t.2.1 _,
      mergedProps_lookup_summary t.1 t.2.1 _,
      mergedProps_lookup_resort t.1 t.2.1 _,
      fun k hk => mergedProps_frame t.1 t.2.1 _ k hk⟩
  · intro fs d2 g h hg
    have hfs := extractB_success h
    rw [hfs] at hg
    obtain ⟨t, ht, rfl⟩ := List.mem_map.mp hg
    refine ⟨t, ht, ?_⟩
    have hp : propsOfFeature (emitB3 t)
        = mergedPropsWith (userPropsPure t.1) t.2.1 (propsOfFeature t.2.2) := by
      simp only [emitB3]
      rw [propsOfFeature_emitB]
    rw [hp]
    exact ⟨mergedProps_lookup_userId t.1 t.2.1 _,
      mergedProps_lookup_ageGroup t.1 t.2.1 _,
      mergedProps_lookup_countryCode t.1 t.2.1 _,
      mergedProps_lookup_gender t.1 t.2.1 _,
      mergedProps_lookup_trackId t.1 t.2.1 _,
      mergedProps_lookup_activity t.1 t.2.1 _,
      mergedProps_lookup_locationCountry t.1 t.2.1 _,
      mergedProps_lookup_summary t.1 t.2.1 _,
      mergedProps_lookup_resort t.1 t.2.1 _,
      fun k hk => mergedProps_frame t.1 t.2.1 _ k hk⟩

/-- Witness for C1: the theorem applied at the spec's example document,
for the single feature each variant emits. -/
theorem c1_property_merge_witness :
    (∃ t ∈ eligTriples exampleDoc,
      lookupD (propsOfFeature exOutA) "userId" = some (objGet t.1 "userId")) ∧
    (∃ t ∈ eligTriplesB exampleDoc,
      lookupD (propsOfFeature exOutB) "trackId" = some (objGet t.2.1 "trackId")) := by
  constructor
  · obtain ⟨t, ht, h1, _⟩ :=
      (c1_property_merge exampleDoc).1 [exOutA] exampleDocAfterA exOutA rfl
        (by simp)
    exact ⟨t, ht, h1⟩
  · obtain ⟨t, ht, _, _, _, _, h5, _⟩ :=
      (c1_property_merge exampleDoc).2 [exOutB] exampleDoc exOutB rfl
        (by simp)
    exact ⟨t, ht, h5⟩

/-- C2: output features preserve the user-major, track-major,
feature-major traversal order of the input: whenever a variant reaches
the success path, its feature list is exactly the per-feature
transform mapped over the eligible traversal triples, so the i-th
output feature is derived from the i-th eligible feature, with skipped
users, skipped tracks and (Variant B) filtered-out features removed
and the relative order of the rest unchanged. -/
theorem c2_traversal_order (doc : Json) :
    (∀ fs d2, extractA doc = .ok (.success fs, d2) →
      fs = (eligTriples doc).map emitA3) ∧
    (∀ fs d2, extractB doc = .ok (.success fs, d2) →
      fs = (eligTriplesB doc).map emitB3) := by
  constructor
  · intro fs d2 h
    exact (extractA_success h).1
  · intro fs d2 h
    exact extractB_success h

/-- Witness for C2 at the spec's example document. -/
theorem c2_traversal_order_witness :
    [exOutA] = (eligTriples exampleDoc).map emitA3 ∧
    [exOutB] = (eligTriplesB exampleDoc).map emitB3 :=
  ⟨(c2_traversal_order exampleDoc).1 [exOutA] exampleDocAfterA rfl,
   (c2_traversal_order exampleDoc).2 [exOutB] exampleDoc rfl⟩

/-- C3: every feature Variant B outputs has a geometry object that is
exactly `{"type": "MultiPoint", "coordinates": cs}` where `cs` is the
source feature's `geometry.coordinates` taken verbatim (`coordsOf`,
the source's `.get("coordinates", [])`), and the source feature of
every output feature has `geometry.type` exactly the literal string
`"LineString"` — no feature with any other geometry type contributes
an output feature. -/
theorem c3_multipoint_geometry (doc : Json) (fs : List Json) (d2 g : Json)
    (h : extractB doc = .ok (.success fs, d2)) (hg : g ∈ fs) :
    ∃ t ∈ eligTriplesB doc,
      isLineStringFeature t.2.2 = true ∧
      objGet g "geometry"
        = .obj [("type", .str "MultiPoint"), ("coordinates", coordsOf t.2.2)] := by
  have hfs := extractB_success h
  rw [hfs] at hg
  obtain ⟨t, ht, rfl⟩ := List.mem_map.mp hg
  exact ⟨t, ht, eligTriplesB_lineString ht, objGet_emitB_geometry _ _ _⟩

/-- Witness for C3 at the spec's example document. -/
theorem c3_multipoint_geometry_witness :
    ∃ t ∈ eligTriplesB exampleDoc,
      isLineStringFeature t.2.2 = true ∧
      objGet exOutB "geometry"
        = .obj [("type", .str "MultiPoint"), ("coordinates", coordsOf t.2.2)] :=
  c3_multipoint_geometry exampleDoc [exOutB] exampleDoc exOutB rfl (by simp)

/-- C4: on the spec's concrete example document, Variant A produces
exactly one feature whose geometry is the unchanged LineString and
whose properties are the nine merged fields, and Variant B produces
exactly one feature with the MultiPoint geometry over the same
coordinates and identical properties (`exOutA`/`exOutB` spell out the
exact expected objects, including `geometry` and `properties`). -/
theorem c4_worked_example :
    extractedA exampleDoc = .ok (.success [exOutA]) ∧
    extractedB exampleDoc = .ok (.success [exOutB]) := by
  constructor
  · rfl
  · rfl

theorem itemsTriples_append (xs ys : List Json) :
    itemsTriples (xs ++ ys) = itemsTriples xs ++ itemsTriples ys := by
  induction xs with
  | nil => simp [itemsTriples]
  | cons i is ih => simp [itemsTriples, ih]

theorem itemsTriplesB_append (xs ys : List Json) :
    itemsTriplesB (xs ++ ys) = itemsTriplesB xs ++ itemsTriplesB ys := by
  induction xs with
  | nil => simp [itemsTriplesB]
  | cons i is ih => simp [itemsTriplesB, ih]

theorem eligTriples_mkDoc (items : List Json) :
    eligTriples (mkDoc items) = itemsTriples items := by
  simp [eligTriples, mkDoc, lookupD]

theorem eligTriplesB_mkDoc (items : List Json) :
    eligTriplesB (mkDoc items) = itemsTriplesB items := by
  simp [eligTriplesB, mkDoc, lookupD]

/-- C5: when the key `items` is present in the document mapping but its
value is not a sequence, both variants report failure for the whole
document: they take the `itemsNotList` path (warning printed,
`return False`) before processing any user record, leave the parsed
tree untouched, and no output is produced. -/
theorem c5_items_not_list (kvs : List (String × Json)) (v : Json)
    (hv : lookupD kvs "items" = some v) (hna : v.isArr = false) :
    extractA (.obj kvs) = .ok (.itemsNotList, .obj kvs) ∧
    extractB (.obj kvs) = .ok (.itemsNotList, .obj kvs) := by
  cases v <;> solve
    | simp [Json.isArr] at hna
    | exact ⟨by simp [extractA, pyGetD, hv, ok_bind],
        by simp [extractB, pyGetD, hv, ok_bind]⟩

/-- Witness for C5: a document whose `items` value is `null`. -/
theorem c5_items_not_list_witness :
    extractA (.obj [("items", .null)])
      = .ok (.itemsNotList, .obj [("items", .null)]) ∧
    extractB (.obj [("items", .null)])
      = .ok (.itemsNotList, .obj [("items", .null)]) :=
  c5_items_not_list [("items", Json.null)] Json.null rfl rfl

/-- C6: for every document a variant processes without exception, when
the result is not the whole-document shape failure, the empty-report
path (`.empty`: "no valid features", `return False` before any write)
is taken exactly when the full traversal yields zero qualifying
features; the two non-writing paths are distinct `ExtractResult`
constructors. -/
theorem c6_empty_result (doc : Json) :
    (∀ r d2, extractA doc = .ok (r, d2) → r ≠ .itemsNotList →
      (r = .empty ↔ eligTriples doc = [])) ∧
    (∀ r d2, extractB doc = .ok (r, d2) → r ≠ .itemsNotList →
      (r = .empty ↔ eligTriplesB doc = [])) := by
  constructor
  · intro r d2 h hne
    rcases extractA_ok h with ⟨h1, _⟩ | ⟨h1, _⟩
    · exact absurd h1 hne
    · by_cases hemp : ((eligTriples doc).map emitA3).isEmpty
      · rw [if_pos hemp] at h1
        subst h1
        have he : eligTriples doc = [] := by
          rcases hel : eligTriples doc with _ | ⟨a, as⟩
          · rfl
          · rw [hel] at hemp
            simp at hemp
        simp [he]
      · rw [if_neg hemp] at h1
        subst h1
        constructor
        · intro hc
          exact absurd hc (by simp)
        · intro he
          rw [he] at hemp
          simp at hemp
  · intro r d2 h hne
    rcases extractB_ok h with ⟨h1, _⟩ | h1
    · exact absurd h1 hne
    · by_cases hemp : ((eligTriplesB doc).map emitB3).isEmpty
      · rw [if_pos hemp] at h1
        subst h1
        have he : eligTriplesB doc = [] := by
          rcases hel : eligTriplesB doc with _ | ⟨a, as⟩
          · rfl
          · rw [hel] at hemp
            simp at hemp
        simp [he]
      · rw [if_neg hemp] at h1
        subst h1
        constructor
        · intro hc
          exact absurd hc (by simp)
        · intro he
          rw [he] at hemp
          simp at hemp

/-- Witness for C6: the empty `items` list takes the empty path in both
variants. -/
theorem c6_empty_result_witness :
    ((ExtractResult.empty = .empty) ↔ eligTriples (mkDoc []) = []) ∧
    ((ExtractResult.empty = .empty) ↔ eligTriplesB (mkDoc []) = []) :=
  ⟨(c6_empty_result (mkDoc [])).1 .empty (mkDoc []) rfl (by simp),
   (c6_empty_result (mkDoc [])).2 .empty (mkDoc []) rfl (by simp)⟩

/-- C7: a user record whose `tracks` value is present but not a
sequence is skipped by itself: processing it yields no features and no
exception (the `continue` path), and for a document containing it
among other user records, the emitted features of both variants are
exactly those contributed by the other user records, in traversal
order. -/
theorem c7_bad_tracks_skips_user (bk : List (String × Json)) (tv : Json)
    (h1 : lookupD bk "tracks" = some tv) (h2 : tv.isArr = false) :
    processItemA (.obj bk) = .ok ([], .obj bk) ∧
    processItemB (.obj bk) = .ok ([], .obj bk) ∧
    (∀ pre post r d2,
      extractA (mkDoc (pre ++ Json.obj bk :: post)) = .ok (r, d2) →
        featuresOf r = (itemsTriples (pre ++ post)).map emitA3) ∧
    (∀ pre post r d2,
      extractB (mkDoc (pre ++ Json.obj bk :: post)) = .ok (r, d2) →
        featuresOf r = (itemsTriplesB (pre ++ post)).map emitB3) := by
  have hbadA : itemTriples (Json.obj bk) = [] := by
    cases tv <;> solve
      | simp [Json.isArr] at h2
      | simp [itemTriples, h1]
  have hbadB : itemTriplesB (Json.obj bk) = [] := by
    cases tv <;> solve
      | simp [Json.isArr] at h2
      | simp [itemTriplesB, h1]
  refine ⟨?_, ?_, ?_, ?_⟩
  · cases tv <;> solve
      | simp [Json.isArr] at h2
      | simp [processItemA, userPropsOf, pyGet, pyGetD, h1, ok_bind]
  · cases tv <;> solve
      | simp [Json.isArr] at h2
      | simp [processItemB, userPropsOf, pyGet, pyGetD, h1, ok_bind]
  · intro pre post r d2 h
    have hkey : eligTriples (mkDoc (pre ++ Json.obj bk :: post))
        = itemsTriples pre ++ itemsTriples post := by
      rw [eligTriples_mkDoc, itemsTriples_append]
      simp [itemsTriples, hbadA]
    rcases extractA_ok h with ⟨h3, kvs2, v2, hdoc, hlv, hna2⟩ | ⟨h3, _⟩
    · simp only [mkDoc, Json.obj.injEq] at hdoc
      rw [← hdoc] at hlv
      simp only [lookupD, if_pos, Option.some.injEq] at hlv
      rw [← hlv] at hna2
      simp [Json.isArr] at hna2
    · by_cases hemp : ((eligTriples (mkDoc (pre ++ Json.obj bk :: post))).map
          emitA3).isEmpty
      · rw [if_pos hemp] at h3
        subst h3
        rw [hkey] at hemp
        simp only [featuresOf]
        rw [itemsTriples_append]
        rcases hll : (itemsTriples pre ++ itemsTriples post).map emitA3
          with _ | ⟨a, as⟩
        · rfl
        · rw [hll] at hemp
          simp at hemp
      · rw [if_neg hemp] at h3
        subst h3
        simp only [featuresOf]
        rw [hkey, itemsTriples_append]
  · intro pre post r d2 h
    have hkey : eligTriplesB (mkDoc (pre ++ Json.obj bk :: post))
        = itemsTriplesB pre ++ itemsTriplesB post := by
      rw [eligTriplesB_mkDoc, itemsTriplesB_append]
      simp [itemsTriplesB, hbadB]
    rcases extractB_ok h with ⟨h3, kvs2, v2, hdoc, hlv, hna2⟩ | h3
    · simp only [mkDoc, Json.obj.injEq] at hdoc
      rw [← hdoc] at hlv
      simp only [lookupD, if_pos, Option.some.injEq] at hlv
      rw [← hlv] at hna2
      simp [Json.isArr] at hna2
    · by_cases hemp : ((eligTriplesB (mkDoc (pre ++ Json.obj bk :: post))).map
          emitB3).isEmpty
      · rw [if_pos hemp] at h3
        subst h3
        rw [hkey] at hemp
        simp only [featuresOf]
        rw [itemsTriplesB_append]
        rcases hll : (itemsTriplesB pre ++ itemsTriplesB post).map emitB3
          with _ | ⟨a, as⟩
        · rfl
        · rw [hll] at hemp
          simp at hemp
      · rw [if_neg hemp] at h3
        subst h3
        simp only [featuresOf]
        rw [hkey, itemsTriplesB_append]

/-- Witness for C7: the bad user record sits after the example's good
user record; both variants still emit the good user's feature. -/
theorem c7_bad_tracks_skips_user_witness :
    processItemA (.obj [("tracks", .num 5)])
      = .ok ([], .obj [("tracks", .num 5)]) ∧
    processItemB (.obj [("tracks", .num 5)])
      = .ok ([], .obj [("tracks", .num 5)]) ∧
    featuresOf (ExtractResult.success [exOutA])
      = (itemsTriples ([exItem] ++ [])).map emitA3 ∧
    featuresOf (ExtractResult.success [exOutB])
      = (itemsTriplesB ([exItem] ++ [])).map emitB3 := by
  obtain ⟨w1, w2, w3, w4⟩ :=
    c7_bad_tracks_skips_user [("tracks", Json.num 5)] (Json.num 5) rfl rfl
  exact ⟨w1, w2,
    w3 [exItem] [] (.success [exOutA])
      (mkDoc [.obj [("userId", .str "u1"),
        ("tracks", .arr [.obj [("trackId", .str "t1"),
          ("track", .obj [("features", .arr [exOutA])])]])],
        .obj [("tracks", .num 5)]]) rfl,
    w4 [exItem] [] (.success [exOutB])
      (mkDoc [exItem, .obj [("tracks", .num 5)]]) rfl⟩

/-- C10: when the key `items` is entirely absent from a mapping
document, both variants treat it as an empty traversal: the `.get`
default `[]` makes the loop run zero times, the zero-features path
reports and returns False (the `.empty` result, distinct from the
`itemsNotList` shape-failure path), the tree is untouched and no
output file is written. -/
theorem c10_items_absent (kvs : List (String × Json))
    (h : lookupD kvs "items" = none) :
    extractA (.obj kvs) = .ok (.empty, .obj kvs) ∧
    extractB (.obj kvs) = .ok (.empty, .obj kvs) := by
  constructor
  · simp [extractA, pyGetD, h, ok_bind, processItemsA]
  · simp [extractB, pyGetD, h, ok_bind, processItemsB]

/-- Witness for C10: the empty mapping document. -/
theorem c10_items_absent_witness :
    extractA (.obj []) = .ok (.empty, .obj []) ∧
    extractB (.obj []) = .ok (.empty, .obj []) :=
  c10_items_absent [] rfl

/-!
## Shape discipline under which no exception is raised

`wellShaped` captures the nested shape both scripts traverse without
raising: it demands nothing where the code guards (absent keys,
non-sequence `items`/`tracks`, falsy `track` values) and an object or
sequence exactly where the code dereferences without a guard.
-/

/-- The feature's `properties` value is safe for
`.get("properties", {}).copy()` followed by `.update`: absent or an
object (and the feature itself is a mapping). -/
def propsOk (f : Json) : Bool :=
  match f with
  | .obj kvs =>
    match lookupD kvs "properties" with
    | none => true
    | some (.obj _) => true
    | some _ => false
  | _ => false

/-- The feature's `geometry` value is safe for
`.get("geometry", {}).get("type")`: absent or an object. -/
def geomOk (f : Json) : Bool :=
  match f with
  | .obj kvs =>
    match lookupD kvs "geometry" with
    | none => true
    | some (.obj _) => true
    | some _ => false
  | _ => false

/-- A feature both variants process without raising. -/
def featureOk (f : Json) : Bool := propsOk f && geomOk f

/-- A track record both variants process without raising: a mapping
whose `track` value is absent, falsy, or a mapping whose `features`
value is absent or a sequence of safe features. -/
def trackOk (ti : Json) : Bool :=
  match ti with
  | .obj kvs =>
    match lookupD kvs "track" with
    | none => true
    | some ifc =>
      if truthy ifc = false then true
      else
        match ifc with
        | .obj ikvs =>
          match lookupD ikvs "features" with
          | none => true
          | some (.arr fs) => fs.all featureOk
          | some _ => false
        | _ => false
  | _ => false

/-- A user record both variants process without raising: a mapping
whose `tracks` value, when a sequence, holds safe track records (a
non-sequence `tracks` is guarded by the `isinstance` check). -/
def itemOk (item : Json) : Bool :=
  match item with
  | .obj kvs =>
    match lookupD kvs "tracks" with
    | some (.arr ts) => ts.all trackOk
    | _ => true
  | _ => false

/-- Modelled from the spec (§3 data model): a parsed document of the
expected nested shape — a mapping whose `items` value, when a
sequence, holds safe user records.  (`items` absent or non-sequence is
handled by a guard, so any value is safe there.) -/
def wellShaped (doc : Json) : Bool :=
  match doc with
  | .obj kvs =>
    match lookupD kvs "items" with
    | some (.arr items) => items.all itemOk
    | _ => true
  | _ => false

theorem processFeatureA_total (up tk fk : List (String × Json))
    (hf : propsOk (.obj fk) = true) :
    processFeatureA up (.obj tk) (.obj fk)
      = .ok (emitAWith up (.obj tk) (.obj fk)) := by
  rcases hl : lookupD fk "properties" with _ | v
  · simp [processFeatureA, pyGetD, pyGet, pyCopy, pyUpdate, pySetItem,
      emitAWith, mergedPropsWith, propsOfFeature, objGet, hl, ok_bind]
  · cases v with
    | obj p =>
      simp [processFeatureA, pyGetD, pyGet, pyCopy, pyUpdate, pySetItem,
        emitAWith, mergedPropsWith, propsOfFeature, objGet, hl, ok_bind]
    | null => simp [propsOk, hl] at hf
    | bool b => simp [propsOk, hl] at hf
    | num n => simp [propsOk, hl] at hf
    | str s => simp [propsOk, hl] at hf
    | arr xs => simp [propsOk, hl] at hf

theorem processFeatureB_total (up tk fk : List (String × Json))
    (hp : propsOk (.obj fk) = true) (hg : geomOk (.obj fk) = true) :
    processFeatureB up (.obj tk) (.obj fk)
      = .ok (if isLineStringFeature (.obj fk)
          then some (emitBWith up (.obj tk) (.obj fk)) else none) := by
  rcases hgl : lookupD fk "geometry" with _ | gv
  · simp [processFeatureB, pyGetD, pyGet, hgl, ok_bind, isLineStringFeature,
      lookupD]
  · cases gv with
    | obj gk =>
      rcases hty : lookupD gk "type" with _ | tvv
      · simp [processFeatureB, pyGetD, pyGet, hgl, hty, ok_bind,
          isLineStringFeature]
      · by_cases hls : tvv = Json.str "LineString"
        · subst hls
          rcases hl : lookupD fk "properties" with _ | pv
          · simp [processFeatureB, pyGetD, pyGet, pyCopy, pyUpdate,
              pySetItem, pySubscript, emitBWith, mergedPropsWith,
              propsOfFeature, coordsOf, objGet, hgl, hty, hl, ok_bind,
              isLineStringFeature]
          · cases pv with
            | obj p =>
              simp [processFeatureB, pyGetD, pyGet, pyCopy, pyUpdate,
                pySetItem, pySubscript, emitBWith, mergedPropsWith,
                propsOfFeature, coordsOf, objGet, hgl, hty, hl, ok_bind,
                isLineStringFeature]
            | null => simp [propsOk, hl] at hp
            | bool b => simp [propsOk, hl] at hp
            | num n => simp [propsOk, hl] at hp
            | str s => simp [propsOk, hl] at hp
            | arr xs => simp [propsOk, hl] at hp
        · simp [processFeatureB, pyGetD, pyGet, hgl, hty, ok_bind,
            isLineStringFeature, hls]
    | null => simp [geomOk, hgl] at hg
    | bool b => simp [geomOk, hgl] at hg
    | num n => simp [geomOk, hgl] at hg
    | str s => simp [geomOk, hgl] at hg
    | arr xs => simp [geomOk, hgl] at hg

theorem processFeaturesA_total (up tk : List (String × Json))
    (fs : List Json) (hall : fs.all featureOk = true) :
    ∃ ys, processFeaturesA up (.obj tk) fs = .ok ys := by
  induction fs with
  | nil => exact ⟨[], rfl⟩
  | cons f fs ih =>
    simp only [List.all_cons, Bool.and_eq_true] at hall
    obtain ⟨hf, hrest⟩ := hall
    obtain ⟨fk, rfl⟩ : ∃ fk, f = Json.obj fk := by
      cases f with
      | obj fk => exact ⟨fk, rfl⟩
      | null => simp [featureOk, propsOk] at hf
      | bool b => simp [featureOk, propsOk] at hf
      | num n => simp [featureOk, propsOk] at hf
      | str s => simp [featureOk, propsOk] at hf
      | arr xs => simp [featureOk, propsOk] at hf
    obtain ⟨ys, hys⟩ := ih hrest
    refine ⟨emitAWith up (.obj tk) (.obj fk) :: ys, ?_⟩
    unfold processFeaturesA
    rw [processFeatureA_total up tk fk
      (by simp only [featureOk, Bool.and_eq_true] at hf; exact hf.1)]
    rw [ok_bind, hys, ok_bind]

theorem processFeaturesB_total (up tk : List (String × Json))
    (fs : List Json) (hall : fs.all featureOk = true) :
    ∃ ys, processFeaturesB up (.obj tk) fs = .ok ys := by
  induction fs with
  | nil => exact ⟨[], rfl⟩
  | cons f fs ih =>
    simp only [List.all_cons, Bool.and_eq_true] at hall
    obtain ⟨hf, hrest⟩ := hall
    obtain ⟨fk, rfl⟩ : ∃ fk, f = Json.obj fk := by
      cases f with
      | obj fk => exact ⟨fk, rfl⟩
      | null => simp [featureOk, propsOk] at hf
      | bool b => simp [featureOk, propsOk] at hf
      | num n => simp [featureOk, propsOk] at hf
      | str s => simp [featureOk, propsOk] at hf
      | arr xs => simp [featureOk, propsOk] at hf
    obtain ⟨ys, hys⟩ := ih hrest
    simp only [featureOk, Bool.and_eq_true] at hf
    by_cases hls : isLineStringFeature (.obj fk)
    · refine ⟨emitBWith up (.obj tk) (.obj fk) :: ys, ?_⟩
      unfold processFeaturesB
      rw [processFeatureB_total up tk fk hf.1 hf.2, ok_bind, hys, ok_bind,
        if_pos hls]
    · refine ⟨ys, ?_⟩
      unfold processFeaturesB
      rw [processFeatureB_total up tk fk hf.1 hf.2, ok_bind, hys, ok_bind,
        if_neg hls]

theorem processTrackA_total (up : List (String × Json)) (ti : Json)
    (ht : trackOk ti = true) : ∃ p, processTrackA up ti = .ok p := by
  obtain ⟨tk, rfl⟩ : ∃ tk, ti = Json.obj tk := by
    cases ti with
    | obj tk => exact ⟨tk, rfl⟩
    | null => simp [trackOk] at ht
    | bool b => simp [trackOk] at ht
    | num n => simp [trackOk] at ht
    | str s => simp [trackOk] at ht
    | arr xs => simp [trackOk] at ht
  rcases htl : lookupD tk "track" with _ | ifc
  · exact ⟨([], .obj tk), by
      simp [processTrackA, pyGet, pyGetD, htl, ok_bind, truthy]⟩
  · by_cases htr : truthy ifc = false
    · exact ⟨([], .obj tk), by
        simp [processTrackA, pyGet, pyGetD, htl, ok_bind, htr]⟩
    · obtain ⟨ikvs, rfl⟩ : ∃ ikvs, ifc = Json.obj ikvs := by
        cases ifc with
        | obj ikvs => exact ⟨ikvs, rfl⟩
        | null => simp [truthy] at htr
        | bool b => simp [trackOk, htl, htr] at ht
        | num n => simp [trackOk, htl, htr] at ht
        | str s => simp [trackOk, htl, htr] at ht
        | arr xs => simp [trackOk, htl, htr] at ht
      rcases hfl : lookupD ikvs "features" with _ | fv
      · refine ⟨([], .obj tk), ?_⟩
        simp only [processTrackA, pyGet, pyGetD, htl, Option.getD_some,
          ok_bind, if_neg htr, pyIn, any_key_eq_isSome, hfl,
          Option.isSome_none]
        simp
      · cases fv with
        | arr fs0 =>
          have hall : fs0.all featureOk = true := by
            simp only [trackOk, htl, if_neg htr, hfl] at ht
            exact ht
          obtain ⟨ys, hys⟩ := processFeaturesA_total up tk fs0 hall
          refine ⟨(ys, .obj (dset tk "track"
            (.obj (dset ikvs "features" (.arr ys))))), ?_⟩
          simp only [processTrackA, pyGet, pyGetD, htl, Option.getD_some,
            ok_bind, if_neg htr, pyIn, any_key_eq_isSome, hfl,
            Option.isSome_some]
          simp only [pyIter, ok_bind]
          rw [hys, ok_bind]
          simp [pySetItem, ok_bind]
        | null => simp [trackOk, htl, htr, hfl] at ht
        | bool b => simp [trackOk, htl, htr, hfl] at ht
        | num n => simp [trackOk, htl, htr, hfl] at ht
        | str s => simp [trackOk, htl, htr, hfl] at ht
        | obj kv2 => simp [trackOk, htl, htr, hfl] at ht

theorem processTrackB_total (up : List (String × Json)) (ti : Json)
    (ht : trackOk ti = true) : ∃ p, processTrackB up ti = .ok p := by
  obtain ⟨tk, rfl⟩ : ∃ tk, ti = Json.obj tk := by
    cases ti with
    | obj tk => exact ⟨tk, rfl⟩
    | null => simp [trackOk] at ht
    | bool b => simp [trackOk] at ht
    | num n => simp [trackOk] at ht
    | str s => simp [trackOk] at ht
    | arr xs => simp [trackOk] at ht
  rcases htl : lookupD tk "track" with _ | ifc
  · exact ⟨([], .obj tk), by
      simp [processTrackB, pyGet, pyGetD, htl, ok_bind, truthy]⟩
  · by_cases htr : truthy ifc = false
    · exact ⟨([], .obj tk), by
        simp [processTrackB, pyGet, pyGetD, htl, ok_bind, htr]⟩
    · obtain ⟨ikvs, rfl⟩ : ∃ ikvs, ifc = Json.obj ikvs := by
        cases ifc with
        | obj ikvs => exact ⟨ikvs, rfl⟩
        | null => simp [truthy] at htr
        | bool b => simp [trackOk, htl, htr] at ht
        | num n => simp [trackOk, htl, htr] at ht
        | str s => simp [trackOk, htl, htr] at ht
        | arr xs => simp [trackOk, htl, htr] at ht
      rcases hfl : lookupD ikvs "features" with _ | fv
      · refine ⟨([], .obj tk), ?_⟩
        simp only [processTrackB, pyGet, pyGetD, htl, Option.getD_some,
          ok_bind, if_neg htr, pyIn, any_key_eq_isSome, hfl,
          Option.isSome_none]
        simp
      · cases fv with
        | arr fs0 =>
          have hall : fs0.all featureOk = true := by
            simp only [trackOk, htl, if_neg htr, hfl] at ht
            exact ht
          obtain ⟨ys, hys⟩ := processFeaturesB_total up tk fs0 hall
          refine ⟨(ys, .obj tk), ?_⟩
          simp only [processTrackB, pyGet, pyGetD, htl, Option.getD_some,
            ok_bind, if_neg htr, pyIn, any_key_eq_isSome, hfl,
            Option.isSome_some]
          simp only [pyIter, ok_bind]
          rw [hys, ok_bind]
          simp
        | null => simp [trackOk, htl, htr, hfl] at ht
        | bool b => simp [trackOk, htl, htr, hfl] at ht
        | num n => simp [trackOk, htl, htr, hfl] at ht
        | str s => simp [trackOk, htl, htr, hfl] at ht
        | obj kv2 => simp [trackOk, htl, htr, hfl] at ht

theorem processTracksA_total (up : List (String × Json)) (ts : List Json)
    (hall : ts.all trackOk = true) : ∃ p, processTracksA up ts = .ok p := by
  induction ts with
  | nil => exact ⟨([], []), rfl⟩
  | cons ti ts ih =>
    simp only [List.all_cons, Bool.and_eq_true] at hall
    obtain ⟨p1, hp1⟩ := processTrackA_total up ti hall.1
    obtain ⟨fs1, ti2⟩ := p1
    obtain ⟨p2, hp2⟩ := ih hall.2
    obtain ⟨fs2, ts2⟩ := p2
    exact ⟨(fs1 ++ fs2, ti2 :: ts2), by
      simp [processTracksA, hp1, hp2, ok_bind]⟩

theorem processTracksB_total (up : List (String × Json)) (ts : List Json)
    (hall : ts.all trackOk = true) : ∃ p, processTracksB up ts = .ok p := by
  induction ts with
  | nil => exact ⟨([], []), rfl⟩
  | cons ti ts ih =>
    simp only [List.all_cons, Bool.and_eq_true] at hall
    obtain ⟨p1, hp1⟩ := processTrackB_total up ti hall.1
    obtain ⟨fs1, ti2⟩ := p1
    obtain ⟨p2, hp2⟩ := ih hall.2
    obtain ⟨fs2, ts2⟩ := p2
    exact ⟨(fs1 ++ fs2, ti2 :: ts2), by
      simp [processTracksB, hp1, hp2, ok_bind]⟩

theorem processItemA_total (item : Json) (hi : itemOk item = true) :
    ∃ p, processItemA item = .ok p := by
  obtain ⟨ik, rfl⟩ : ∃ ik, item = Json.obj ik := by
    cases item with
    | obj ik => exact ⟨ik, rfl⟩
    | null => simp [itemOk] at hi
    | bool b => simp [itemOk] at hi
    | num n => simp [itemOk] at hi
    | str s => simp [itemOk] at hi
    | arr xs => simp [itemOk] at hi
  rcases htl : lookupD ik "tracks" with _ | tv
  · exact ⟨([], .obj ik), by
      simp [processItemA, userPropsOf, pyGet, pyGetD, htl, ok_bind,
        processTracksA]⟩
  · cases tv with
    | arr ts =>
      have hall : ts.all trackOk = true := by
        simp only [itemOk, htl] at hi
        exact hi
      obtain ⟨p, hp⟩ := processTracksA_total (userPropsPure (.obj ik)) ts hall
      obtain ⟨fs2, ts2⟩ := p
      simp only [userPropsPure, objGet] at hp
      refine ⟨(fs2, .obj (dset ik "tracks" (.arr ts2))), ?_⟩
      simp [processItemA, userPropsOf, pyGet, pyGetD, htl, ok_bind, hp,
        pySetItem]
    | null => exact ⟨([], .obj ik), by
        simp [processItemA, userPropsOf, pyGet, pyGetD, htl, ok_bind]⟩
    | bool b => exact ⟨([], .obj ik), by
        simp [processItemA, userPropsOf, pyGet, pyGetD, htl, ok_bind]⟩
    | num n => exact ⟨([], .obj ik), by
        simp [processItemA, userPropsOf, pyGet, pyGetD, htl, ok_bind]⟩
    | str s => exact ⟨([], .obj ik), by
        simp [processItemA, userPropsOf, pyGet, pyGetD, htl, ok_bind]⟩
    | obj kv2 => exact ⟨([], .obj ik), by
        simp [processItemA, userPropsOf, pyGet, pyGetD, htl, ok_bind]⟩

theorem processItemB_total (item : Json) (hi : itemOk item = true) :
    ∃ p, processItemB item = .ok p := by
  obtain ⟨ik, rfl⟩ : ∃ ik, item = Json.obj ik := by
    cases item with
    | obj ik => exact ⟨ik, rfl⟩
    | null => simp [itemOk] at hi
    | bool b => simp [itemOk] at hi
    | num n => simp [itemOk] at hi
    | str s => simp [itemOk] at hi
    | arr xs => simp [itemOk] at hi
  rcases htl : lookupD ik "tracks" with _ | tv
  · exact ⟨([], .obj ik), by
      simp [processItemB, userPropsOf, pyGet, pyGetD, htl, ok_bind,
        processTracksB]⟩
  · cases tv with
    | arr ts =>
      have hall : ts.all trackOk = true := by
        simp only [itemOk, htl] at hi
        exact hi
      obtain ⟨p, hp⟩ := processTracksB_total (userPropsPure (.obj ik)) ts hall
      obtain ⟨fs2, ts2⟩ := p
      simp only [userPropsPure, objGet] at hp
      refine ⟨(fs2, .obj ik), ?_⟩
      simp [processItemB, userPropsOf, pyGet, pyGetD, htl, ok_bind, hp]
    | null => exact ⟨([], .obj ik), by
        simp [processItemB, userPropsOf, pyGet, pyGetD, htl, ok_bind]⟩
    | bool b => exact ⟨([], .obj ik), by
        simp [processItemB, userPropsOf, pyGet, pyGetD, htl, ok_bind]⟩
    | num n => exact ⟨([], .obj ik), by
        simp [processItemB, userPropsOf, pyGet, pyGetD, htl, ok_bind]⟩
    | str s => exact ⟨([], .obj ik), by
        simp [processItemB, userPropsOf, pyGet, pyGetD, htl, ok_bind]⟩
    | obj kv2 => exact ⟨([], .obj ik), by
        simp [processItemB, userPropsOf, pyGet, pyGetD, htl, ok_bind]⟩

theorem processItemsA_total (items : List Json)
    (hall : items.all itemOk = true) : ∃ p, processItemsA items = .ok p := by
  induction items with
  | nil => exact ⟨([], []), rfl⟩
  | cons i is ih =>
    simp only [List.all_cons, Bool.and_eq_true] at hall
    obtain ⟨p1, hp1⟩ := processItemA_total i hall.1
    obtain ⟨fs1, i2⟩ := p1
    obtain ⟨p2, hp2⟩ := ih hall.2
    obtain ⟨fs2, is2⟩ := p2
    exact ⟨(fs1 ++ fs2, i2 :: is2), by
      simp [processItemsA, hp1, hp2, ok_bind]⟩

theorem processItemsB_total (items : List Json)
    (hall : items.all itemOk = true) : ∃ p, processItemsB items = .ok p := by
  induction items with
  | nil => exact ⟨([], []), rfl⟩
  | cons i is ih =>
    simp only [List.all_cons, Bool.and_eq_true] at hall
    obtain ⟨p1, hp1⟩ := processItemB_total i hall.1
    obtain ⟨fs1, i2⟩ := p1
    obtain ⟨p2, hp2⟩ := ih hall.2
    obtain ⟨fs2, is2⟩ := p2
    exact ⟨(fs1 ++ fs2, i2 :: is2), by
      simp [processItemsB, hp1, hp2, ok_bind]⟩

theorem extractA_total {doc : Json} (hw : wellShaped doc = true) :
    ∃ rd, extractA doc = .ok rd := by
  obtain ⟨kvs, rfl⟩ : ∃ kvs, doc = Json.obj kvs := by
    cases doc with
    | obj kvs => exact ⟨kvs, rfl⟩
    | null => simp [wellShaped] at hw
    | bool b => simp [wellShaped] at hw
    | num n => simp [wellShaped] at hw
    | str s => simp [wellShaped] at hw
    | arr xs => simp [wellShaped] at hw
  rcases hil : lookupD kvs "items" with _ | iv
  · exact ⟨(.empty, .obj kvs), by
      simp [extractA, pyGetD, hil, ok_bind, processItemsA]⟩
  · cases iv with
    | arr items =>
      have hall : items.all itemOk = true := by
        simp only [wellShaped, hil] at hw
        exact hw
      obtain ⟨p, hp⟩ := processItemsA_total items hall
      obtain ⟨fs, is2⟩ := p
      cases fs with
      | nil => exact ⟨(.empty, .obj (dset kvs "items" (.arr is2))), by
          simp [extractA, pyGetD, hil, ok_bind, hp, pySetItem]⟩
      | cons f0 fs2 =>
        exact ⟨(.success (f0 :: fs2), .obj (dset kvs "items" (.arr is2))), by
          simp [extractA, pyGetD, hil, ok_bind, hp, pySetItem]⟩
    | null => exact ⟨(.itemsNotList, .obj kvs), by
        simp [extractA, pyGetD, hil, ok_bind]⟩
    | bool b => exact ⟨(.itemsNotList, .obj kvs), by
        simp [extractA, pyGetD, hil, ok_bind]⟩
    | num n => exact ⟨(.itemsNotList, .obj kvs), by
        simp [extractA, pyGetD, hil, ok_bind]⟩
    | str s => exact ⟨(.itemsNotList, .obj kvs), by
        simp [extractA, pyGetD, hil, ok_bind]⟩
    | obj kv2 => exact ⟨(.itemsNotList, .obj kvs), by
        simp [extractA, pyGetD, hil, ok_bind]⟩

theorem extractB_total {doc : Json} (hw : wellShaped doc = true) :
    ∃ rd, extractB doc = .ok rd := by
  obtain ⟨kvs, rfl⟩ : ∃ kvs, doc = Json.obj kvs := by
    cases doc with
    | obj kvs => exact ⟨kvs, rfl⟩
    | null => simp [wellShaped] at hw
    | bool b => simp [wellShaped] at hw
    | num n => simp [wellShaped] at hw
    | str s => simp [wellShaped] at hw
    | arr xs => simp [wellShaped] at hw
  rcases hil : lookupD kvs "items" with _ | iv
  · exact ⟨(.empty, .obj kvs), by
      simp [extractB, pyGetD, hil, ok_bind, processItemsB]⟩
  · cases iv with
    | arr items =>
      have hall : items.all itemOk = true := by
        simp only [wellShaped, hil] at hw
        exact hw
      obtain ⟨p, hp⟩ := processItemsB_total items hall
      obtain ⟨fs, is2⟩ := p
      cases fs with
      | nil => exact ⟨(.empty, .obj kvs), by
          simp [extractB, pyGetD, hil, ok_bind, hp]⟩
      | cons f0 fs2 => exact ⟨(.success (f0 :: fs2), .obj kvs), by
          simp [extractB, pyGetD, hil, ok_bind, hp]⟩
    | null => exact ⟨(.itemsNotList, .obj kvs), by
        simp [extractB, pyGetD, hil, ok_bind]⟩
    | bool b => exact ⟨(.itemsNotList, .obj kvs), by
        simp [extractB, pyGetD, hil, ok_bind]⟩
    | num n => exact ⟨(.itemsNotList, .obj kvs), by
        simp [extractB, pyGetD, hil, ok_bind]⟩
    | str s => exact ⟨(.itemsNotList, .obj kvs), by
        simp [extractB, pyGetD, hil, ok_bind]⟩
    | obj kv2 => exact ⟨(.itemsNotList, .obj kvs), by
        simp [extractB, pyGetD, hil, ok_bind]⟩

/-- A document matching one of C8's own example shapes: a track whose
`features` value is `null`. -/
def nullFeaturesDoc : Json :=
  mkDoc [.obj [("tracks", .arr [.obj [("track",
    .obj [("features", .null)])]])]]

/-- C8 counterexample: on a document whose `features` value is `null`
(one of the claim's own listed shapes), both variants raise an
uncaught TypeError — `for feature in ....get("features", [])` iterates
`None` — so processing does not end with a boolean result and the
exception propagates out of `process_json_file`. -/
theorem c8_exception_escapes :
    extractA nullFeaturesDoc = .error .typeError ∧
    extractB nullFeaturesDoc = .error .typeError :=
  ⟨rfl, rfl⟩

/-- C8 (amended): for every parsed document of the expected nested
shape (`wellShaped`: a mapping whose `items` sequence holds mappings,
whose sequence-valued `tracks` hold mappings with absent/falsy/mapping
`track` values, object-or-absent `features` containers holding
mappings with object-or-absent `properties` and `geometry`), the
processing of a single document terminates with a boolean result in
both variants: every guard-handled irregularity is recovered at
per-document or per-record granularity and no exception escapes
`process_json_file`.  Outside this shape an exception can escape, as
the counterexample shows. -/
theorem c8_wellShaped_no_exception (doc : Json)
    (hw : wellShaped doc = true) :
    (∃ rd, extractA doc = .ok rd) ∧ ∃ rd, extractB doc = .ok rd :=
  ⟨extractA_total hw, extractB_total hw⟩

/-- Witness for the amended C8 at the spec's example document. -/
theorem c8_wellShaped_no_exception_witness :
    (∃ rd, extractA exampleDoc = .ok rd) ∧
    ∃ rd, extractB exampleDoc = .ok rd :=
  c8_wellShaped_no_exception exampleDoc rfl

/-- C9 counterexample: Variant A mutates the parsed input tree.  After
processing the spec's example document the post-state tree differs
from the input: the feature's `properties` entry inside the tree was
overwritten in place with the merged mapping (line 80,
`feature["properties"] = new_properties`), and the emitted feature
aliases the input tree. -/
theorem c9_variantA_mutates_input :
    extractA exampleDoc = .ok (.success [exOutA], exampleDocAfterA) ∧
    exampleDocAfterA ≠ exampleDoc :=
  ⟨rfl, by decide⟩

/-- C9 (amended): the extraction has no side effects beyond its result
except Variant A's in-place properties overwrite: Variant B leaves the
parsed input tree unchanged — for every run its post-state tree equals
the input document — and the embedded extractors perform no I/O;
Variant A, by contrast, overwrites each emitted feature's `properties`
entry inside the input tree, as the counterexample shows. -/
theorem c9_variantB_preserves_input (doc : Json) (r : ExtractResult)
    (d2 : Json) (h : extractB doc = .ok (r, d2)) : d2 = doc :=
  extractB_preserves_doc h

/-- Witness for the amended C9 at the spec's example document. -/
theorem c9_variantB_preserves_input_witness : exampleDoc = exampleDoc :=
  c9_variantB_preserves_input exampleDoc (.success [exOutB]) exampleDoc rfl
